import Mathlib

/-!
# Verification of the openreview-matcher FairFlow solver and its service glue

This development shallowly embeds the parts of the `openreview-matcher`
repository that the verified claims are about:

* `matcher/solvers/fairflow.py` — the `FairFlow` class: its constructor
  (minimum-load adjustment, random replacement of an all-zero affinity
  matrix), input-range validation, paper grouping by makespan, the
  "validifier" and "improvement" flow networks, the makespan binary
  search (`find_ms`) and `solve`.
* `matcher/service/openreview_interface.py` — the quota resolver
  (`_get_quota_arrays`) and the per-paper demand resolver (`demands`).
* `matcher/match.py` — the custom-load handling in `Match.compute_match`.
* `matcher/utils.py` — `weight_scores` and `cost`.

The external `ortools` min-cost-flow solver (`pywrapgraph.SimpleMinCostFlow`)
is not part of the repository; it is modelled as an explicit oracle
parameter that receives the network built by the repository code (arc set,
capacities, costs, required flow) and returns either `none` (a non-OPTIMAL
status, which the repository code turns into a `SolverException`) or the set
of reviewer/paper arcs that carry positive flow.  The repository code itself
decides which arcs exist and how flow on an arc updates the assignment
matrix, so those parts are embedded directly and the oracle is universally
quantified in the theorems.

Python floats are modelled as rationals, Python ints as `ℤ`, numpy binary
matrices as `Fin R → Fin P → Bool` (reviewer-major, matching
`self.solution`), and the unbounded `while` loops of `find_ms` and `solve`
are given explicit fuel; running out of fuel produces a distinguished
`spin` outcome so that every theorem about a run that returns normally is
faithful to the Python control flow.
-/

namespace ORMatcher

attribute [local semireducible] Rat.mul Rat.inv Rat.add Rat.sub

/-- Python `int()` applied to a float: truncation toward zero. -/
def pyInt (q : ℚ) : ℤ := if 0 ≤ q then ⌊q⌋ else ⌈q⌉

/-- Model of `np.max` of a list of values (`0` for the empty list, which numpy
rejects; all uses in the claims have nonempty input). -/
def listMax : List ℚ → ℚ
  | [] => 0
  | x :: xs => xs.foldl max x

/-- Model of `np.min` of a list of values (`0` for the empty list). -/
def listMin : List ℚ → ℚ
  | [] => 0
  | x :: xs => xs.foldl min x

/-- A binary assignment matrix, reviewer-major: `sol i j = true` iff
reviewer `i` is assigned to paper `j` (the solver's `self.solution`). -/
abbrev Sol (R P : ℕ) := Fin R → Fin P → Bool

/-- The all-zeros solution `np.zeros((num_reviewers, num_papers))`. -/
def zeroSol (R P : ℕ) : Sol R P := fun _ _ => false

variable {R P : ℕ}

/-- Entries of a reviewer×paper matrix as a list (row-major). -/
def matEntries (M : Fin R → Fin P → ℚ) : List ℚ :=
  (List.finRange R).flatMap fun i => (List.finRange P).map (M i)

/-- Model of `np.argmin` along a column: the first index attaining the minimum
(`none` only when `R = 0`). -/
def argminFirst (f : Fin R → ℚ) : Option (Fin R) :=
  (List.finRange R).foldl
    (fun acc i =>
      match acc with
      | none => some i
      | some j => if f i < f j then some i else some j)
    none

/-- The solver state after `FairFlow.__init__`: quota vectors, demands,
the working affinity matrix `self.affinity_matrix` (`eff`), the
constraint matrix (paper-major, as in the Python code) and the
`allow_zero_score_assignments` flag. -/
structure Ctx (R P : ℕ) where
  minimums : Fin R → ℤ
  maximums : Fin R → ℤ
  demands : Fin P → ℤ
  eff : Fin R → Fin P → ℚ
  K : Fin P → Fin R → ℤ
  allowZero : Bool

/-- Constant `self.big_c = 10000`. -/
def bigC : ℚ := 10000

/-- Constant `self.bigger_c = self.big_c**2`. -/
def biggerC : ℚ := bigC * bigC

/-- Value `self.max_affinities = np.max(self.affinity_matrix)`. -/
def maxAffinities (c : Ctx R P) : ℚ := listMax (matEntries c.eff)

/-- A reviewer with no nonzero affinity to any paper once constrained
pairs are masked out:
`np.all((affinity_matrix * (constraint_matrix == 0).T) == 0, axis=1)`. -/
def badReviewer (eff : Fin R → Fin P → ℚ) (K : Fin P → Fin R → ℤ)
    (r : Fin R) : Prop :=
  ∀ p, eff r p * (if K p r = 0 then (1 : ℚ) else 0) = 0

instance (eff : Fin R → Fin P → ℚ) (K : Fin P → Fin R → ℤ) (r : Fin R) :
    Decidable (badReviewer eff K r) :=
  inferInstanceAs (Decidable (∀ p, eff r p * (if K p r = 0 then (1 : ℚ) else 0) = 0))

/-- Embeds `FairFlow.__init__` with `solution=None`: the affinity matrix is the
encoder matrix transposed to reviewer-major (`A`); if it has no nonzero
entry it is replaced by `np.random.rand(...)`, modelled by the explicit
`rand` argument; when zero-score assignments are not allowed, the minimum
load of every `badReviewer` is overwritten with `0` in place. -/
def mkCtx (minimums maximums : Fin R → ℤ) (demands : Fin P → ℤ)
    (A : Fin R → Fin P → ℚ) (K : Fin P → Fin R → ℤ) (allowZero : Bool)
    (rand : Fin R → Fin P → ℚ) : Ctx R P :=
  let eff : Fin R → Fin P → ℚ := if ∀ i j, A i j = 0 then rand else A
  { minimums :=
      if allowZero then minimums
      else fun r => if badReviewer eff K r then 0 else minimums r
    maximums := maximums
    demands := demands
    eff := eff
    K := K
    allowZero := allowZero }

/-- Value of `np.sum(self.solution, axis=0)` at paper `j`: its assigned count. -/
def colSum (sol : Sol R P) (j : Fin P) : ℤ :=
  ∑ i, (if sol i j then (1 : ℤ) else 0)

/-- Value of `np.sum(self.solution, axis=1)` at reviewer `i`: its load. -/
def rowSum (sol : Sol R P) (i : Fin R) : ℤ :=
  ∑ j, (if sol i j then (1 : ℤ) else 0)

/-- A paper's score `np.sum(self.solution * self.affinity_matrix, axis=0)`. -/
def papScore (c : Ctx R P) (sol : Sol R P) (j : Fin P) : ℚ :=
  ∑ i, (if sol i j then c.eff i j else 0)

/-- Condition `np.all(np.sum(self.solution, axis=0) == self.demands)`. -/
def demandsMet (c : Ctx R P) (sol : Sol R P) : Prop :=
  ∀ j, colSum sol j = c.demands j

instance (c : Ctx R P) (sol : Sol R P) : Decidable (demandsMet c sol) :=
  inferInstanceAs (Decidable (∀ j, colSum sol j = c.demands j))

/-- The three validity checks of `_construct_and_solve_validifier_network`
(lines 247–259): demands exactly met, maximum loads respected, minimum
loads respected. -/
def checksHold (c : Ctx R P) (sol : Sol R P) : Prop :=
  demandsMet c sol ∧ (∀ i, rowSum sol i ≤ c.maximums i) ∧
    (∀ i, c.minimums i ≤ rowSum sol i)

instance (c : Ctx R P) (sol : Sol R P) : Decidable (checksHold c sol) :=
  inferInstanceAs (Decidable (demandsMet c sol ∧ (∀ i, rowSum sol i ≤ c.maximums i) ∧
    (∀ i, c.minimums i ≤ rowSum sol i)))

/-- The min-cost-flow network handed to `ortools` by
`_construct_graph_and_solve`: source→reviewer capacities, paper→sink
capacities, the required flow, the reviewer→paper arcs that were added,
and their integer costs. -/
structure GIn (R P : ℕ) where
  caps : Fin R → ℤ
  covs : Fin P → ℤ
  flow : ℤ
  arcs : Fin R → Fin P → Bool
  cost : Fin R → Fin P → ℤ

/-- The external MCF solver: `none` models a non-OPTIMAL status, `some fl`
the set of reviewer→paper arcs carrying positive flow. -/
abbrev GOracle (R P : ℕ) := GIn R P → Option (Fin R → Fin P → Bool)

/-- The reviewer→paper arcs of `_construct_graph_and_solve` (lines
583–603): pair not already assigned, constraint zero, and nonzero
affinity unless zero-score assignments are allowed. -/
def graphArcs (c : Ctx R P) (sol : Sol R P) : Fin R → Fin P → Bool :=
  fun i j =>
    !sol i j && decide (c.K j i = 0) &&
      (c.allowZero || decide (c.eff i j ≠ 0))

/-- The arc cost `int(-1.0 - self.big_c * ws[i, j])`. -/
def graphCost (c : Ctx R P) : Fin R → Fin P → ℤ :=
  fun i j => pyInt (-1 - bigC * c.eff i j)

/-- Embeds `_construct_graph_and_solve`: build the network, ask the oracle, and
on OPTIMAL mark every arc with positive flow as assigned (the code
asserts those pairs were unassigned, which holds because arcs are only
added for unassigned pairs).  `none` models the raised
`SolverException`, which leaves the solution untouched. -/
def graphSolve (o : GOracle R P) (c : Ctx R P) (caps : Fin R → ℤ)
    (covs : Fin P → ℤ) (flow : ℤ) (sol : Sol R P) : Option (Sol R P) :=
  match o ⟨caps, covs, flow, graphArcs c sol, graphCost c⟩ with
  | none => none
  | some fl => some fun i j => sol i j || (graphArcs c sol i j && fl i j)

/-- Embeds `_construct_and_solve_validifier_network`: first route flow to meet
unmet minimum loads (skipped when no minimum is unmet), then route the
residual paper demand, then run the three validity checks.  The error
value carries the solution as mutated so far (the raised
`SolverException` leaves `self.solution` in that state). -/
def validifier (o : GOracle R P) (c : Ctx R P) (sol : Sol R P) :
    Except (Sol R P) (Sol R P) :=
  match (if 0 < (∑ i, max (c.minimums i - rowSum sol i) 0) then
      match graphSolve o c (fun i => max (c.minimums i - rowSum sol i) 0)
          (fun j => max (c.demands j - colSum sol j) 0)
          (∑ i, max (c.minimums i - rowSum sol i) 0) sol with
      | none => Except.error sol
      | some s => Except.ok s
    else (Except.ok sol : Except (Sol R P) (Sol R P))) with
  | .error s => .error s
  | .ok sol1 =>
    match graphSolve o c (fun i => c.maximums i - rowSum sol1 i)
        (fun j => max (c.demands j - colSum sol1 j) 0)
        (∑ j, max (c.demands j - colSum sol1 j) 0) sol1 with
    | none => .error sol1
    | some sol2 => if checksHold c sol2 then .ok sol2 else .error sol2

/-- The mutable solver state threaded through `try_improve_ms`, `find_ms`
and `solve`: `self.solution`, `self.valid`, `self.makespan`. -/
structure FFSt (R P : ℕ) where
  sol : Sol R P
  valid : Bool
  makespan : ℚ

instance : Inhabited (FFSt R P) := ⟨⟨zeroSol R P, false, 0⟩⟩

instance : DecidableEq (FFSt R P) := fun a b =>
  if h : a.sol = b.sol ∧ a.valid = b.valid ∧ a.makespan = b.makespan then
    .isTrue (by obtain ⟨h1, h2, h3⟩ := h; cases a; cases b; simp_all)
  else
    .isFalse (by intro he; subst he; exact h ⟨rfl, rfl, rfl⟩)

/-- Embeds `_grp_paps_by_ms`: papers with score at least the makespan (`g1`),
papers within `max_affinities` below it (`g2`), and the rest (`g3`), each
in ascending index order as `np.where` returns them. -/
def grpPapsByMs (c : Ctx R P) (sol : Sol R P) (ms : ℚ) :
    List (Fin P) × List (Fin P) × List (Fin P) :=
  let score := papScore c sol
  ((List.finRange P).filter fun j => decide (ms ≤ score j),
   (List.finRange P).filter fun j =>
     decide (score j < ms) && decide (ms - maxAffinities c ≤ score j),
   (List.finRange P).filter fun j => decide (score j < ms - maxAffinities c))

/-- Embeds `_worst_reviewer` for one paper: the first reviewer minimising
`(solution - 1) * -big_c + affinity` down its column (assigned reviewers
keep their affinity, unassigned ones are shifted up by `big_c`). -/
def worstRev (c : Ctx R P) (sol : Sol R P) (p : Fin P) : Option (Fin R) :=
  argminFirst fun i => (if sol i p then 0 else bigC) + c.eff i p

/-- Update `self.solution[w_revs, w_paps] = 0.0`: unassign the worst reviewer of
every paper in `g3`. -/
def unassignWorst (c : Ctx R P) (sol : Sol R P) (g3 : List (Fin P)) :
    Sol R P := fun i p =>
  if p ∈ g3 ∧ worstRev c sol p = some i then false else sol i p

/-- Reviewers currently assigned to some paper of `g1` (the reversal arcs
out of `g1` papers end in exactly these reviewers). -/
def g1Revs (sol : Sol R P) (g1 : List (Fin P)) (i : Fin R) : Bool :=
  g1.any fun p => sol i p

/-- An arc from reviewer `i` into the flow-restricting dummy node of a
`g2` paper `p` (lines 337–355): `i` gives up a `g1` assignment, is not
already on `p`, the pair is unconstrained, and has nonzero affinity
unless zero-score assignments are allowed. -/
def g2DummyArc (c : Ctx R P) (sol2 : Sol R P) (g1 g2 : List (Fin P))
    (i : Fin R) (p : Fin P) : Bool :=
  decide (p ∈ g2) && g1Revs sol2 g1 i && !sol2 i p &&
    decide (c.K p i = 0) && (c.allowZero || decide (c.eff i p ≠ 0))

/-- Value `pg2_to_minaff`: minimum affinity over the incoming dummy arcs of a
`g2` paper, `none` when there is none (the `np.inf` default). -/
def pg2MinAff (c : Ctx R P) (sol2 : Sol R P) (g1 g2 : List (Fin P))
    (p : Fin P) : Option ℚ :=
  (List.finRange R).foldl
    (fun acc i =>
      if g2DummyArc c sol2 g1 g2 i p then
        match acc with
        | none => some (c.eff i p)
        | some q => some (min q (c.eff i p))
      else acc)
    none

/-- A reversal arc from a `g2` paper `p` to an assigned reviewer `i`
(lines 356–374): allowed only when some dummy arc reaches `p` and the
post-swap lower bound on the paper score keeps `p` out of `g3`. -/
def g2Reversal (c : Ctx R P) (sol2 : Sol R P) (ms : ℚ)
    (g1 g2 : List (Fin P)) (p : Fin P) (i : Fin R) : Bool :=
  decide (p ∈ g2) && sol2 i p &&
    (match pg2MinAff c sol2 g1 g2 p with
     | none => false
     | some minIn =>
       decide (ms - maxAffinities c ≤ papScore c sol2 p + minIn - c.eff i p))

/-- Set `assignment_to_give`: reviewers assigned to a `g1` paper, plus those
reachable through an allowed `g2` reversal. -/
def assignToGive (c : Ctx R P) (sol2 : Sol R P) (ms : ℚ)
    (g1 g2 : List (Fin P)) (i : Fin R) : Bool :=
  g1Revs sol2 g1 i ||
    (List.finRange P).any fun p => g2Reversal c sol2 ms g1 g2 p i

/-- An arc from a freed reviewer into a `g3` paper (lines 376–396). -/
def g3Arc (c : Ctx R P) (sol2 : Sol R P) (ms : ℚ)
    (g1 g2 g3 : List (Fin P)) (i : Fin R) (p : Fin P) : Bool :=
  decide (p ∈ g3) && assignToGive c sol2 ms g1 g2 i && !sol2 i p &&
    decide (c.K p i = 0) && (c.allowZero || decide (c.eff i p ≠ 0))

/-- All unassignment (paper→reviewer) arcs of the improvement network. -/
def unassignArcs (c : Ctx R P) (sol2 : Sol R P) (ms : ℚ)
    (g1 g2 : List (Fin P)) (p : Fin P) (i : Fin R) : Bool :=
  (decide (p ∈ g1) && sol2 i p) || g2Reversal c sol2 ms g1 g2 p i

/-- All assignment (reviewer→paper, possibly through a dummy node) arcs
of the improvement network. -/
def assignArcs (c : Ctx R P) (sol2 : Sol R P) (ms : ℚ)
    (g1 g2 g3 : List (Fin P)) (i : Fin R) (p : Fin P) : Bool :=
  g2DummyArc c sol2 g1 g2 i p || g3Arc c sol2 ms g1 g2 g3 i p

/-- Cost of a `g3` assignment arc: the `bigger_c` reward when the new
assignment would lift the paper out of `g3`, else the `big_c` reward. -/
def g3ArcCost (c : Ctx R P) (sol2 : Sol R P) (ms : ℚ) (i : Fin R)
    (p : Fin P) : ℤ :=
  if ms - maxAffinities c ≤ c.eff i p + papScore c sol2 p then
    pyInt (-1 - biggerC * c.eff i p)
  else pyInt (-1 - bigC * c.eff i p)

/-- The improvement network as handed to `ortools` by
`_construct_ms_improvement_network`. -/
structure ImpIn (R P : ℕ) where
  sol : Sol R P
  g1 : List (Fin P)
  g2 : List (Fin P)
  g3 : List (Fin P)
  unArcs : Fin P → Fin R → Bool
  asArcs : Fin R → Fin P → Bool
  cost : Fin R → Fin P → ℤ
  flow : ℤ

/-- The external MCF solver for the improvement network: on OPTIMAL it
reports which unassignment and assignment arcs carry positive flow. -/
abbrev IOracle (R P : ℕ) :=
  ImpIn R P → Option ((Fin P → Fin R → Bool) × (Fin R → Fin P → Bool))

/-- Embeds `_construct_ms_improvement_network` followed by
`solve_ms_improvement`: on OPTIMAL, pairs with flow on a reversal arc are
unassigned and pairs with flow on an assignment arc are assigned (the
assertions in the Python code hold because reversal arcs only exist for
assigned pairs and assignment arcs only for unassigned ones); `none`
models the non-OPTIMAL `SolverException`, which mutates nothing. -/
def improveStep (oI : IOracle R P) (c : Ctx R P) (ms : ℚ)
    (g1 g2 g3 : List (Fin P)) (sol2 : Sol R P) : Option (Sol R P) :=
  match oI ⟨sol2, g1, g2, g3, unassignArcs c sol2 ms g1 g2,
      assignArcs c sol2 ms g1 g2 g3,
      (fun i p =>
        if g3Arc c sol2 ms g1 g2 g3 i p then g3ArcCost c sol2 ms i p else 0),
      min (g3.length : ℤ) (g1.length : ℤ)⟩ with
  | none => none
  | some (fUn, fAs) =>
    some fun i p =>
      (sol2 i p && !(unassignArcs c sol2 ms g1 g2 p i && fUn p i)) ||
        (assignArcs c sol2 ms g1 g2 g3 i p && fAs i p)

/-- The entry of `try_improve_ms` (lines 526–528): when some paper's
demand is not exactly met, run the validifier network (which sets
`self.valid = True` on success). -/
def entryPhase (oG : GOracle R P) (c : Ctx R P) (st : FFSt R P) :
    Except (FFSt R P) (FFSt R P) :=
  if demandsMet c st.sol then .ok st
  else
    match validifier oG c st.sol with
    | .error s => .error { st with sol := s }
    | .ok s => .ok { st with sol := s, valid := true }

/-- Embeds `try_improve_ms`: normalise the solution, group papers by makespan;
when both `g1` and `g3` are nonempty, unassign the worst reviewer of each
`g3` paper, run the improvement network, re-validate, and fail if the
`g3` group grew; otherwise return the group sizes unchanged. -/
def tryImproveMs (oG : GOracle R P) (oI : IOracle R P) (c : Ctx R P)
    (st : FFSt R P) : Except (FFSt R P) (FFSt R P × ℕ × ℕ) :=
  match entryPhase oG c st with
  | .error s => .error s
  | .ok stE =>
    if 0 < (grpPapsByMs c stE.sol stE.makespan).1.length ∧
        0 < (grpPapsByMs c stE.sol stE.makespan).2.2.length then
      match improveStep oI c stE.makespan (grpPapsByMs c stE.sol stE.makespan).1
          (grpPapsByMs c stE.sol stE.makespan).2.1
          (grpPapsByMs c stE.sol stE.makespan).2.2
          (unassignWorst c stE.sol (grpPapsByMs c stE.sol stE.makespan).2.2) with
      | none =>
        .error { stE with
          sol := unassignWorst c stE.sol (grpPapsByMs c stE.sol stE.makespan).2.2 }
      | some sol3 =>
        match validifier oG c sol3 with
        | .error s => .error { stE with sol := s, valid := false }
        | .ok sol4 =>
          if (grpPapsByMs c stE.sol stE.makespan).2.2.length <
              (grpPapsByMs c sol4 stE.makespan).2.2.length then
            .error { stE with sol := sol4, valid := true }
          else
            .ok ({ stE with sol := sol4, valid := true },
              (grpPapsByMs c sol4 stE.makespan).1.length,
              (grpPapsByMs c sol4 stE.makespan).2.2.length)
    else
      .ok (stE, (grpPapsByMs c stE.sol stE.makespan).1.length,
        (grpPapsByMs c stE.sol stE.makespan).2.2.length)

/-- Outcome of a fuelled loop of `try_improve_ms` calls: a normal return
with the final state and the last `(s1, s3)` sizes, a raised
`SolverException` carrying the state at the raise, or fuel exhaustion
(`spin`, meaning the model cannot decide the loop within the given
fuel — no theorem concludes anything from it). -/
inductive Res3 (R P : ℕ) where
  | ok : FFSt R P → ℕ → ℕ → Res3 R P
  | err : FFSt R P → Res3 R P
  | spin : Res3 R P

/-- The inner `while can_improve and prev_s3 != s3` loop of `find_ms`
(lines 666–682), fuelled.  `prev3` starts at `-1`. -/
def innerLoop (oG : GOracle R P) (oI : IOracle R P) (c : Ctx R P) :
    ℕ → FFSt R P → ℕ → ℕ → ℤ → Res3 R P
  | fuel, st, s1, s3, prev3 =>
    if 0 < s3 ∧ prev3 ≠ (s3 : ℤ) then
      match fuel with
      | 0 => .spin
      | n + 1 =>
        match tryImproveMs oG oI c st with
        | .error s => .err s
        | .ok (st1, a, b) => innerLoop oG oI c n st1 a b (s3 : ℤ)
    else .ok st s1 s3

/-- The `success` flag of a `find_ms` iteration (lines 692–698):
`s3 == 0`, and every assigned pair has nonzero affinity unless zero-score
assignments are allowed. -/
def successOk (c : Ctx R P) (sol : Sol R P) (s3 : ℕ) : Prop :=
  s3 = 0 ∧ (c.allowZero = true ∨ ∀ i j, sol i j = true → c.eff i j ≠ 0)

instance (c : Ctx R P) (sol : Sol R P) (s3 : ℕ) :
    Decidable (successOk c sol s3) :=
  inferInstanceAs (Decidable (s3 = 0 ∧ (c.allowZero = true ∨ ∀ i j, sol i j = true → c.eff i j ≠ 0)))

/-- The binary-search state of `find_ms`: bounds, current makespan, best
feasible makespan so far and its worst paper score, and the solver
state. -/
structure FMSt (R P : ℕ) where
  mn : ℚ
  mx : ℚ
  ms : ℚ
  best : Option ℚ
  bestWorst : ℚ
  st : FFSt R P

instance : DecidableEq (FMSt R P) := fun a b =>
  if h : a.mn = b.mn ∧ a.mx = b.mx ∧ a.ms = b.ms ∧ a.best = b.best ∧
      a.bestWorst = b.bestWorst ∧ a.st = b.st then
    .isTrue (by obtain ⟨h1, h2, h3, h4, h5, h6⟩ := h; cases a; cases b; simp_all)
  else .isFalse (by intro he; subst he; exact h ⟨rfl, rfl, rfl, rfl, rfl, rfl⟩)

/-- One iteration of the `for i in range(10)` loop of `find_ms`: run
`try_improve_ms` to convergence inside `try`, on success move the lower
bound up, otherwise (including on any caught `SolverException`) move the
upper bound down; either way reset the solution to the starter (all
zeros when no initial solution was supplied) and store the new makespan.
`none` is fuel exhaustion of the inner loop. -/
def fmIter (oG : GOracle R P) (oI : IOracle R P) (c : Ctx R P) (fuel : ℕ)
    (fm : FMSt R P) : Option (FMSt R P) :=
  match (match tryImproveMs oG oI c fm.st with
    | .error s => Res3.err s
    | .ok (st1, a, b) => innerLoop oG oI c fuel st1 a b (-1)) with
  | .spin => none
  | .err stE =>
    some ⟨fm.mn, fm.ms, fm.ms - (fm.ms - fm.mn) / 2, fm.best, fm.bestWorst,
      ⟨zeroSol R P, stE.valid, fm.ms - (fm.ms - fm.mn) / 2⟩⟩
  | .ok stOk _ s3 =>
    if successOk c stOk.sol s3 ∧
        fm.bestWorst ≤ listMin ((List.finRange P).map (papScore c stOk.sol)) then
      some ⟨fm.ms, fm.mx, fm.ms + (fm.mx - fm.ms) / 2, some fm.ms,
        listMin ((List.finRange P).map (papScore c stOk.sol)),
        ⟨zeroSol R P, stOk.valid, fm.ms + (fm.mx - fm.ms) / 2⟩⟩
    else
      some ⟨fm.mn, fm.ms, fm.ms - (fm.ms - fm.mn) / 2, fm.best, fm.bestWorst,
        ⟨zeroSol R P, stOk.valid, fm.ms - (fm.ms - fm.mn) / 2⟩⟩

/-- The binary-search state before the first `find_ms` iteration:
`mn = 0`, `mx = np.max(affinity) * np.max(demands)`, `ms = (mx - mn) / 2`,
no best makespan, best worst paper score `0.0`, and `self.makespan = ms`
over the starter (zero) solution. -/
def fmStart (c : Ctx R P) : FMSt R P :=
  ⟨0,
   listMax (matEntries c.eff) *
     listMax ((List.finRange P).map fun j => ((c.demands j : ℚ))),
   (listMax (matEntries c.eff) *
     listMax ((List.finRange P).map fun j => ((c.demands j : ℚ))) - 0) / 2,
   none, 0,
   ⟨zeroSol R P, false,
    (listMax (matEntries c.eff) *
      listMax ((List.finRange P).map fun j => ((c.demands j : ℚ))) - 0) / 2⟩⟩

/-- Embeds `find_ms`: binary search on the makespan in
`[0, np.max(affinity) * np.max(demands)]` — the `for i in range(10)`
loop written as ten chained iterations — returning the final state
together with the best makespan found (`0.0` when none). -/
def findMs (oG : GOracle R P) (oI : IOracle R P) (c : Ctx R P)
    (fuel : ℕ) : Option (FMSt R P × ℚ) :=
  match (((((((((fmIter oG oI c fuel (fmStart c)).bind
      (fmIter oG oI c fuel)).bind (fmIter oG oI c fuel)).bind
      (fmIter oG oI c fuel)).bind (fmIter oG oI c fuel)).bind
      (fmIter oG oI c fuel)).bind (fmIter oG oI c fuel)).bind
      (fmIter oG oI c fuel)).bind (fmIter oG oI c fuel)).bind
      (fmIter oG oI c fuel) with
  | none => none
  | some fm => some (fm, fm.best.getD 0)

/-- Outcome of `FairFlow.solve`: the final state on success (its
solution field is the returned matrix, before the final transpose), a
raised `SolverException` carrying the state, or fuel exhaustion. -/
inductive RunRes (R P : ℕ) where
  | ok : FFSt R P → RunRes R P
  | err : FFSt R P → RunRes R P
  | spin : RunRes R P

instance : DecidableEq (RunRes R P) := fun a b =>
  match a, b with
  | .ok s, .ok t => if h : s = t then .isTrue (by rw [h]) else
      .isFalse (by intro he; cases he; exact h rfl)
  | .err s, .err t => if h : s = t then .isTrue (by rw [h]) else
      .isFalse (by intro he; cases he; exact h rfl)
  | .spin, .spin => .isTrue rfl
  | .ok _, .err _ => .isFalse (by intro h; cases h)
  | .ok _, .spin => .isFalse (by intro h; cases h)
  | .err _, .ok _ => .isFalse (by intro h; cases h)
  | .err _, .spin => .isFalse (by intro h; cases h)
  | .spin, .ok _ => .isFalse (by intro h; cases h)
  | .spin, .err _ => .isFalse (by intro h; cases h)

instance {w : Type _} {x : Type _} [DecidableEq w] [DecidableEq x] :
    DecidableEq (Except w x) := fun a b =>
  match a, b with
  | .error y, .error z =>
    if h : y = z then .isTrue (by rw [h])
    else .isFalse (by intro he; cases he; exact h rfl)
  | .ok y, .ok z =>
    if h : y = z then .isTrue (by rw [h])
    else .isFalse (by intro he; cases he; exact h rfl)
  | .error _, .ok _ => .isFalse (by intro h; cases h)
  | .ok _, .error _ => .isFalse (by intro h; cases h)

/-- Embeds `_validate_input_range`: total demand must lie between total minimum
and total maximum supply (the code raises when
`demand > max_supply or demand < min_supply`). -/
def validRange (c : Ctx R P) : Prop :=
  (∑ j, c.demands j) ≤ (∑ i, c.maximums i) ∧
    (∑ i, c.minimums i) ≤ (∑ j, c.demands j)

instance (c : Ctx R P) : Decidable (validRange c) :=
  inferInstanceAs (Decidable ((∑ j, c.demands j) ≤ (∑ i, c.maximums i) ∧
    (∑ i, c.minimums i) ≤ (∑ j, c.demands j)))

/-- The final `while can_improve and (prev_s1 != s1 or prev_s3 != s3)`
loop of `solve` (lines 746–751) followed by `sol_as_mat`, fuelled. -/
def solveLoop (oG : GOracle R P) (oI : IOracle R P) (c : Ctx R P) :
    ℕ → FFSt R P → ℕ → ℕ → ℤ → ℤ → RunRes R P
  | fuel, st, s1, s3, prev1, prev3 =>
    if 0 < s3 ∧ (prev1 ≠ (s1 : ℤ) ∨ prev3 ≠ (s3 : ℤ)) then
      match fuel with
      | 0 => .spin
      | n + 1 =>
        match tryImproveMs oG oI c st with
        | .error s => .err s
        | .ok (st1, a, b) => solveLoop oG oI c n st1 a b (s1 : ℤ) (s3 : ℤ)
    else if st.valid then .ok st else .err st

/-- Embeds `FairFlow.solve` (constructed with `solution=None`): validate the
input range, run the makespan binary search, fix the makespan, run
`try_improve_ms` to convergence, and return the solution when
`self.valid` holds (`sol_as_mat`; the Python code returns its
transpose).  The initial error state mirrors `__init__`:
zero solution, `valid = False`, `makespan = 0.0`. -/
def solveFF (oG : GOracle R P) (oI : IOracle R P) (c : Ctx R P)
    (fuelInner fuelLoop : ℕ) : RunRes R P :=
  if validRange c then
    match findMs oG oI c fuelInner with
    | none => .spin
    | some (fm, ms) =>
      match tryImproveMs oG oI c { fm.st with makespan := ms } with
      | .error s => .err s
      | .ok (st1, a, b) => solveLoop oG oI c fuelLoop st1 a b (-1) (-1)
  else .err ⟨zeroSol R P, false, 0⟩

/-- Whether a run returned normally. -/
def isOk : RunRes R P → Bool
  | .ok _ => true
  | _ => false

/-- The final state of a normal run. -/
def getOk : RunRes R P → Option (FFSt R P)
  | .ok st => some st
  | _ => none

/-- One entry of the returned assignment matrix, `none` unless the run
returned normally. -/
def okEntry (r : RunRes R P) (i : Fin R) (j : Fin P) : Option Bool :=
  match r with
  | .ok st => some (st.sol i j)
  | _ => none

/-- A reviewer's load in the returned assignment, `none` unless the run
returned normally. -/
def okRowSum (r : RunRes R P) (i : Fin R) : Option ℤ :=
  match r with
  | .ok st => some (rowSum st.sol i)
  | _ => none

/-! ## Service layer: quota resolver, demand resolver, custom loads

`ConfigNoteInterface._get_quota_arrays` and the `demands` property build
id→index dictionaries (`{r: idx for idx, r in enumerate(...)}`, so the
last occurrence of a duplicated id wins) and silently skip edges whose id
is not a key (`.get(x, -1)` followed by `if index >= 0`).  Arrays are
modelled as functions `ℕ → ℤ` whose meaningful domain is the index range
of the id list. -/

/-- Index lookup in the Python dict `{x: idx for idx, x in enumerate(ids)}`:
the index of the last occurrence of `t`, or `none`. -/
def lastIdx (ids : List String) (t : String) : Option ℕ :=
  match ids.reverse.indexOf? t with
  | none => none
  | some k => some (ids.length - 1 - k)

/-- Embeds one edge of the `custom_supply_edges` loop of
`_get_quota_arrays` (lines 420–429): clamp the override below at zero,
cap the maximum with it, then lower the minimum to the new maximum. -/
def quotaStep (ids : List String) (st : (ℕ → ℤ) × (ℕ → ℤ))
    (e : String × ℤ) : (ℕ → ℤ) × (ℕ → ℤ) :=
  match lastIdx ids e.1 with
  | none => st
  | some i =>
    let maxs1 : ℕ → ℤ :=
      fun k => if k = i then min (st.2 i) (if 0 < e.2 then e.2 else 0) else st.2 k
    let mins1 : ℕ → ℤ :=
      fun k => if k = i then min (st.1 i) (maxs1 i) else st.1 k
    (mins1, maxs1)

/-- Embeds `ConfigNoteInterface._get_quota_arrays`: global
`min_papers`/`max_papers` for every reviewer, then the custom supply
edges folded in order. -/
def getQuotaArrays (minPapers maxPapers : ℤ) (reviewers : List String)
    (edges : List (String × ℤ)) : (ℕ → ℤ) × (ℕ → ℤ) :=
  edges.foldl (quotaStep reviewers) (fun _ => minPapers, fun _ => maxPapers)

/-- The override rule as §4.2 of the specification words it:
`maximum[r] ← min(maximum[r], max(override, 0))` folded over the
reviewer's override edges, and `minimum[r]` lowered at the end so that
`minimum[r] ≤ maximum[r]`.  Kept separate from `getQuotaArrays` so the
two can be compared. -/
def specClampStep (ids : List String) (i : ℕ) (m : ℤ) (e : String × ℤ) : ℤ :=
  if lastIdx ids e.1 = some i then min m (max e.2 0) else m

/-- Folded specification rule for one reviewer's maximum (see
`specQuotaArrays`). -/
def specQuotaMax (maxPapers : ℤ) (ids : List String)
    (edges : List (String × ℤ)) (i : ℕ) : ℤ :=
  edges.foldl (specClampStep ids i) maxPapers

/-- Specification-side quota resolution (see `specQuotaMax`). -/
def specQuotaArrays (minPapers maxPapers : ℤ) (reviewers : List String)
    (edges : List (String × ℤ)) : (ℕ → ℤ) × (ℕ → ℤ) :=
  (fun i => min minPapers (specQuotaMax maxPapers reviewers edges i),
   fun i => specQuotaMax maxPapers reviewers edges i)

/-- Embeds the custom-load loop of `Match.compute_match`
(`matcher/match.py` lines 86–91): a known reviewer's maximum is
overwritten with the custom load outright, and the minimum is lowered to
the custom load when the load is below it.  The id→index map is
`encoder.index_by_reviewer`, an index map over the ordered reviewer list
(the `Encoder` class lives outside the sources; the map is modelled from
the specification's ordered reviewer list). -/
def matchCustomLoads (reviewers : List String)
    (minimums maximums : ℕ → ℤ) (customLoads : List (String × ℤ)) :
    (ℕ → ℤ) × (ℕ → ℤ) :=
  customLoads.foldl
    (fun st e =>
      match lastIdx reviewers e.1 with
      | none => st
      | some i =>
        let maxs1 : ℕ → ℤ := fun k => if k = i then e.2 else st.2 k
        let mins1 : ℕ → ℤ :=
          fun k => if k = i then (if e.2 < st.1 i then e.2 else st.1 i) else st.1 k
        (mins1, maxs1))
    (minimums, maximums)

/-- Embeds the `demands` property of `ConfigNoteInterface` (lines
212–242): every paper starts at the global user demand; each custom
demand edge whose head is a known paper overwrites that paper's demand;
edges with unknown heads are skipped. -/
def demandStep (papers : List String) (d : ℕ → ℤ) (e : String × ℤ) :
    ℕ → ℤ :=
  match lastIdx papers e.1 with
  | none => d
  | some i => fun k => if k = i then e.2 else d k

/-- Folded demand resolution (see `resolveDemands`). -/
def resolveDemands (papers : List String) (userDemand : ℤ)
    (edges : List (String × ℤ)) : ℕ → ℤ :=
  edges.foldl (demandStep papers) (fun _ => userDemand)

/-! ## `matcher/utils.py` -/

/-- The names bound at module level in `matcher/utils.py` when `cost`
executes: the `openreview` import and the four function definitions.
There is no binding named `utils`. -/
def matcherUtilsGlobals : List String :=
  ["openreview", "weight_scores", "cost", "get_conflicts",
   "get_author_info", "get_profile_info"]

/-- Embeds `utils.weight_scores`: for each feature in `weights` that is
also in `scores`, the product of score and weight (dicts as association
lists with unique keys). -/
def weightScores (scores weights : List (String × ℚ)) :
    List (String × ℚ) :=
  weights.filterMap fun fw =>
    match scores.lookup fw.1 with
    | none => none
    | some sv => some (fw.1, sv * fw.2)

/-- Result of calling a Python function: a `NameError` on an undefined
global, or a value. -/
inductive PyOutcome where
  | nameError : String → PyOutcome
  | ok : ℤ → PyOutcome
deriving DecidableEq

/-- The value `cost` would compute if its body could run:
`-1 * int(score_sum / precision)` over the weighted scores. -/
def costIntended (scores weights : List (String × ℚ)) (precision : ℚ) : ℤ :=
  -1 * pyInt (((weightScores scores weights).map Prod.snd).sum / precision)

/-- Embeds `utils.cost` (lines 27–30): the body's first expression is
`utils.weight_scores(scores, weights)`, which resolves the global name
`utils`; since `matcherUtilsGlobals` has no such binding, the call
raises `NameError` before anything else happens. -/
def cost (scores weights : List (String × ℚ)) (precision : ℚ) :
    PyOutcome :=
  if "utils" ∈ matcherUtilsGlobals then
    .ok (costIntended scores weights precision)
  else .nameError "utils"

/-! ## Concrete oracles and instances

The oracles below instantiate the universally quantified MCF parameter
in witnesses and counterexamples.  `bestGOracle` routes each paper's
demand through its cheapest available arc (lowest cost, ties to the
lowest reviewer index) — on the one-paper instances used below this is
exactly the optimal min-cost flow, hence what `ortools` returns. -/

/-- A deterministic MCF oracle: flow on the arcs of minimal cost into
each paper (first reviewer index on ties). -/
def bestGOracle : GOracle R P := fun g =>
  some fun i j =>
    g.arcs i j && decide (∀ i2, g.arcs i2 j = true →
      (g.cost i j < g.cost i2 j ∨ (g.cost i j = g.cost i2 j ∧ i ≤ i2)))

/-- An improvement-network oracle that always reports non-OPTIMAL: the
runs below never reach the improvement network, so it is never asked. -/
def noneIOracle : IOracle R P := fun _ => none

/-- Two reviewers, one paper, reviewer 1 has zero affinity everywhere:
with `allow_zero_score_assignments = False` the constructor zeroes
reviewer 1's minimum load. -/
def affC1 : Fin 2 → Fin 1 → ℚ := fun i _ => if i.val = 0 then 1 else 0

/-- The minimum loads passed to the solver in the instance of `affC1`:
reviewer 1 is required to review one paper. -/
def minsC1 : Fin 2 → ℤ := fun i => if i.val = 0 then 0 else 1

/-- A constraint-free constraint matrix. -/
def freeK : Fin 1 → Fin 2 → ℤ := fun _ _ => 0

/-- The solver context of the `affC1` instance. -/
def ctxC1 : Ctx 2 1 :=
  mkCtx minsC1 (fun _ => 1) (fun _ => 1) affC1 freeK false (fun _ _ => 0)

/-- A full run on the `affC1` instance. -/
def runC1 : RunRes 2 1 := solveFF bestGOracle noneIOracle ctxC1 4 4

/-- A constraint matrix locking reviewer 0 onto paper 0. -/
def lockK : Fin 1 → Fin 2 → ℤ := fun _ i => if i.val = 0 then 1 else 0

/-- The solver context of the lock instance: two reviewers, one paper,
all affinities 1, pair (reviewer 0, paper 0) locked by `K = +1`. -/
def ctxC2 : Ctx 2 1 :=
  mkCtx (fun _ => 0) (fun _ => 1) (fun _ => 1) (fun _ _ => 1) lockK false
    (fun _ _ => 0)

/-- A full run on the lock instance. -/
def runC2 : RunRes 2 1 := solveFF bestGOracle noneIOracle ctxC2 4 4

/-- The all-zero affinity matrix supplied to the solver in the
random-replacement instances. -/
def affZero : Fin 2 → Fin 1 → ℚ := fun _ _ => 0

/-- One draw of `np.random.rand`: reviewer 0 gets the larger value. -/
def randA : Fin 2 → Fin 1 → ℚ := fun i _ => if i.val = 0 then 1/2 else 1/4

/-- Another draw of `np.random.rand`: reviewer 1 gets the larger value. -/
def randB : Fin 2 → Fin 1 → ℚ := fun i _ => if i.val = 0 then 1/4 else 1/2

/-- Context built from the all-zero affinity matrix under draw `randA`. -/
def ctxZA : Ctx 2 1 :=
  mkCtx (fun _ => 0) (fun _ => 1) (fun _ => 1) affZero freeK false randA

/-- Context built from the all-zero affinity matrix under draw `randB`. -/
def ctxZB : Ctx 2 1 :=
  mkCtx (fun _ => 0) (fun _ => 1) (fun _ => 1) affZero freeK false randB

/-- A full run on the all-zero instance under draw `randA`. -/
def runZA : RunRes 2 1 := solveFF bestGOracle noneIOracle ctxZA 4 4

/-- A full run on the all-zero instance under draw `randB`. -/
def runZB : RunRes 2 1 := solveFF bestGOracle noneIOracle ctxZB 4 4

/-- A context whose total demand (5) exceeds the total maximum supply
(2): `_validate_input_range` must reject it. -/
def ctxC5 : Ctx 2 1 :=
  mkCtx (fun _ => 0) (fun _ => 1) (fun _ => 5) (fun _ _ => 1) freeK false
    (fun _ _ => 0)

/-- A one-reviewer, one-paper, zero-demand context used to exercise a
normally returning `try_improve_ms` call. -/
def ctxC6 : Ctx 1 1 :=
  mkCtx (fun _ => 0) (fun _ => 1) (fun _ => 0) (fun _ _ => 1)
    (fun _ _ => 0) true (fun _ _ => 0)

/-- A solution avoids a set of bad pairs when it assigns none of them. -/
def avoids (B : Fin R → Fin P → Prop) (sol : Sol R P) : Prop :=
  ∀ i j, B i j → sol i j = false

/-- The feasible-checks witness: some solution passes the validifier
checks for this context (used to track the provenance of
`self.valid = True`). -/
def VP (c : Ctx R P) : Prop := ∃ s : Sol R P, checksHold c s

/-! ## Helper theorems -/

theorem optSomeBind {α β : Type _} (a : α) (f : α → Option β) :
    (some a).bind f = f a := rfl

theorem avoids_zero (B : Fin R → Fin P → Prop) : avoids B (zeroSol R P) :=
  fun _ _ _ => rfl

theorem graphSolve_avoids {o : GOracle R P} {c : Ctx R P} {caps covs flow}
    {sol sol2 : Sol R P} {B : Fin R → Fin P → Prop}
    (hB : ∀ s i j, B i j → graphArcs c s i j = false)
    (h : graphSolve o c caps covs flow sol = some sol2)
    (hQ : avoids B sol) : avoids B sol2 := by
  unfold graphSolve at h
  split at h
  · exact absurd h (by simp)
  · cases h
    intro i j hij
    simp [hB sol i j hij, hQ i j hij]

theorem validifier_avoids {o : GOracle R P} {c : Ctx R P}
    {sol s : Sol R P} {B : Fin R → Fin P → Prop}
    (hB : ∀ s2 i j, B i j → graphArcs c s2 i j = false)
    (h : validifier o c sol = .ok s) (hQ : avoids B sol) : avoids B s := by
  unfold validifier at h
  split at h
  · exact absurd h (by simp)
  next sol1 hstep =>
    have hQ1 : avoids B sol1 := by
      split at hstep
      · split at hstep
        · exact absurd hstep (by simp)
        next h1 => cases hstep; exact graphSolve_avoids hB h1 hQ
      · cases hstep; exact hQ
    split at h
    · exact absurd h (by simp)
    next sol2 h2 =>
      split at h
      · cases h; exact graphSolve_avoids hB h2 hQ1
      · exact absurd h (by simp)

theorem unassignWorst_avoids {c : Ctx R P} {sol : Sol R P}
    {g3 : List (Fin P)} {B : Fin R → Fin P → Prop}
    (hQ : avoids B sol) : avoids B (unassignWorst c sol g3) := by
  intro i j hij
  unfold unassignWorst
  split
  · rfl
  · exact hQ i j hij

theorem improveStep_avoids {oI : IOracle R P} {c : Ctx R P} {ms g1 g2 g3}
    {sol2 sol3 : Sol R P} {B : Fin R → Fin P → Prop}
    (hB : ∀ s ms2 a1 a2 a3 i j, B i j → assignArcs c s ms2 a1 a2 a3 i j = false)
    (h : improveStep oI c ms g1 g2 g3 sol2 = some sol3)
    (hQ : avoids B sol2) : avoids B sol3 := by
  unfold improveStep at h
  split at h
  · exact absurd h (by simp)
  · cases h
    intro i j hij
    simp [hB sol2 ms g1 g2 g3 i j hij, hQ i j hij]

theorem entryPhase_avoids {oG : GOracle R P} {c : Ctx R P} {st stE : FFSt R P}
    {B : Fin R → Fin P → Prop}
    (hB : ∀ s2 i j, B i j → graphArcs c s2 i j = false)
    (h : entryPhase oG c st = .ok stE)
    (hQ : avoids B st.sol) : avoids B stE.sol := by
  unfold entryPhase at h
  split at h
  · cases h; exact hQ
  · split at h
    · exact absurd h (by simp)
    next s hv => cases h; exact validifier_avoids hB hv hQ

theorem tryImprove_avoids_ok {oG : GOracle R P} {oI : IOracle R P}
    {c : Ctx R P} {st st2 : FFSt R P} {a b : ℕ} {B : Fin R → Fin P → Prop}
    (hB : ∀ s2 i j, B i j → graphArcs c s2 i j = false)
    (hA : ∀ s ms2 a1 a2 a3 i j, B i j → assignArcs c s ms2 a1 a2 a3 i j = false)
    (h : tryImproveMs oG oI c st = .ok (st2, a, b))
    (hQ : avoids B st.sol) : avoids B st2.sol := by
  unfold tryImproveMs at h
  split at h
  · exact absurd h (by simp)
  next stE hE =>
    have hQE : avoids B stE.sol := entryPhase_avoids hB hE hQ
    split at h
    · split at h
      · exact absurd h (by simp)
      next sol3 hI =>
        have hQ3 : avoids B sol3 :=
          improveStep_avoids hA hI (unassignWorst_avoids hQE)
        split at h
        · exact absurd h (by simp)
        next sol4 hV =>
          have hQ4 : avoids B sol4 := validifier_avoids hB hV hQ3
          split at h
          · exact absurd h (by simp)
          · cases h; exact hQ4
    · cases h; exact hQE

theorem solveLoop_avoids {oG : GOracle R P} {oI : IOracle R P}
    {c : Ctx R P} {B : Fin R → Fin P → Prop}
    (hB : ∀ s2 i j, B i j → graphArcs c s2 i j = false)
    (hA : ∀ s ms2 a1 a2 a3 i j, B i j → assignArcs c s ms2 a1 a2 a3 i j = false) :
    ∀ (fuel : ℕ) (st : FFSt R P) (s1 s3 : ℕ) (p1 p3 : ℤ) (stF : FFSt R P),
      solveLoop oG oI c fuel st s1 s3 p1 p3 = .ok stF →
      avoids B st.sol → avoids B stF.sol := by
  intro fuel
  induction fuel with
  | zero =>
    intro st s1 s3 p1 p3 stF h hQ
    unfold solveLoop at h
    split at h
    · exact absurd h (by simp)
    · split at h
      · cases h; exact hQ
      · exact absurd h (by simp)
  | succ n ih =>
    intro st s1 s3 p1 p3 stF h hQ
    unfold solveLoop at h
    split at h
    · dsimp only at h
      cases h2 : tryImproveMs oG oI c st with
      | error s => rw [h2] at h; exact absurd h (by simp)
      | ok t =>
        obtain ⟨st1, a, b⟩ := t
        rw [h2] at h
        exact ih st1 a b _ _ stF h (tryImprove_avoids_ok hB hA h2 hQ)
    · split at h
      · cases h; exact hQ
      · exact absurd h (by simp)

theorem fmIter_sol_zero {oG : GOracle R P} {oI : IOracle R P} {c : Ctx R P}
    {fuel : ℕ} {fm fm1 : FMSt R P} (h : fmIter oG oI c fuel fm = some fm1) :
    fm1.st.sol = zeroSol R P := by
  unfold fmIter at h
  split at h
  · exact absurd h (by simp)
  · cases h; rfl
  · split at h
    · cases h; rfl
    · cases h; rfl

theorem findMs_sol_zero {oG : GOracle R P} {oI : IOracle R P} {c : Ctx R P}
    {fuel : ℕ} {fm : FMSt R P} {ms : ℚ}
    (h : findMs oG oI c fuel = some (fm, ms)) : fm.st.sol = zeroSol R P := by
  unfold findMs at h
  split at h
  · exact absurd h (by simp)
  next fm2 hchain =>
    cases h
    rcases Option.bind_eq_some.mp hchain with ⟨fm9, _, h9⟩
    exact fmIter_sol_zero h9

/-- Any normally returning run of `solve` assigns no pair from a bad-pair
set that the reviewer→paper arc builders always exclude.  This is the
common core of the lock and zero-affinity invariants: the solution starts
at zero and every assignment enters through an arc. -/
theorem solveFF_ok_avoids {oG : GOracle R P} {oI : IOracle R P}
    {c : Ctx R P} {fI fL : ℕ} {st : FFSt R P} {B : Fin R → Fin P → Prop}
    (hB : ∀ s2 i j, B i j → graphArcs c s2 i j = false)
    (hA : ∀ s ms2 a1 a2 a3 i j, B i j → assignArcs c s ms2 a1 a2 a3 i j = false)
    (h : solveFF oG oI c fI fL = .ok st) : avoids B st.sol := by
  unfold solveFF at h
  split at h
  · split at h
    · exact absurd h (by simp)
    next fm ms hfm =>
      have hz : fm.st.sol = zeroSol R P := findMs_sol_zero hfm
      split at h
      · exact absurd h (by simp)
      next st1 a b htry =>
        refine solveLoop_avoids hB hA fL st1 a b _ _ st h ?_
        refine tryImprove_avoids_ok hB hA htry ?_
        show avoids B fm.st.sol
        rw [hz]
        exact avoids_zero B
  · exact absurd h (by simp)

/-- A successful validifier run passed the three checks. -/
theorem validifier_ok_checks {o : GOracle R P} {c : Ctx R P}
    {sol s : Sol R P} (h : validifier o c sol = .ok s) : checksHold c s := by
  unfold validifier at h
  split at h
  · exact absurd h (by simp)
  next sol1 hstep =>
    split at h
    · exact absurd h (by simp)
    · split at h
      · cases h; assumption
      · exact absurd h (by simp)

/-- Normal return of `try_improve_ms`: if the input state was valid only
when its (demand-exact) solution passed the checks, the output state is
valid only when its solution passes the checks. -/
theorem tryImprove_ok_checks {oG : GOracle R P} {oI : IOracle R P}
    {c : Ctx R P} {st st2 : FFSt R P} {a b : ℕ}
    (h : tryImproveMs oG oI c st = .ok (st2, a, b))
    (hP : st.valid = true → demandsMet c st.sol → checksHold c st.sol) :
    st2.valid = true → checksHold c st2.sol := by
  unfold tryImproveMs at h
  split at h
  · exact absurd h (by simp)
  next stE hE =>
    have hPE : stE.valid = true → checksHold c stE.sol := by
      unfold entryPhase at hE
      split at hE
      next hdm => cases hE; intro hv; exact hP hv hdm
      · split at hE
        · exact absurd hE (by simp)
        next s hv => cases hE; intro _; exact validifier_ok_checks hv
    split at h
    · split at h
      · exact absurd h (by simp)
      next sol3 hI =>
        split at h
        · exact absurd h (by simp)
        next sol4 hV =>
          split at h
          · exact absurd h (by simp)
          · cases h; intro _; exact validifier_ok_checks hV
    · cases h; exact hPE

/-- Normal return of `try_improve_ms` preserves the provenance of the
`self.valid` flag: it is only ever set with a checks-passing witness. -/
theorem tryImprove_ok_vp {oG : GOracle R P} {oI : IOracle R P}
    {c : Ctx R P} {st st2 : FFSt R P} {a b : ℕ}
    (h : tryImproveMs oG oI c st = .ok (st2, a, b))
    (hW : st.valid = true → VP c) : st2.valid = true → VP c := by
  unfold tryImproveMs at h
  split at h
  · exact absurd h (by simp)
  next stE hE =>
    have hWE : stE.valid = true → VP c := by
      unfold entryPhase at hE
      split at hE
      · cases hE; exact hW
      · split at hE
        · exact absurd hE (by simp)
        next s hv => cases hE; intro _; exact ⟨s, validifier_ok_checks hv⟩
    split at h
    · split at h
      · exact absurd h (by simp)
      next sol3 hI =>
        split at h
        · exact absurd h (by simp)
        next sol4 hV =>
          split at h
          · exact absurd h (by simp)
          · cases h; intro _; exact ⟨sol4, validifier_ok_checks hV⟩
    · cases h; exact hWE

/-- Raised `SolverException` of `try_improve_ms` preserves the provenance
of the `self.valid` flag. -/
theorem tryImprove_err_vp {oG : GOracle R P} {oI : IOracle R P}
    {c : Ctx R P} {st s2 : FFSt R P}
    (h : tryImproveMs oG oI c st = .error s2)
    (hW : st.valid = true → VP c) : s2.valid = true → VP c := by
  unfold tryImproveMs at h
  split at h
  next s hE =>
    cases h
    unfold entryPhase at hE
    split at hE
    · exact absurd hE (by simp)
    · split at hE
      next s0 hv => cases hE; exact hW
      · exact absurd hE (by simp)
  next stE hE =>
    have hWE : stE.valid = true → VP c := by
      unfold entryPhase at hE
      split at hE
      · cases hE; exact hW
      · split at hE
        · exact absurd hE (by simp)
        next s hv => cases hE; intro _; exact ⟨s, validifier_ok_checks hv⟩
    split at h
    · split at h
      · cases h; exact hWE
      next sol3 hI =>
        split at h
        next s hV => cases h; intro hfalse; cases hfalse
        next sol4 hV =>
          split at h
          · cases h; intro _; exact ⟨sol4, validifier_ok_checks hV⟩
          · exact absurd h (by simp)
    · exact absurd h (by simp)

/-- The inner convergence loop of `find_ms` preserves the provenance of
the `self.valid` flag, on both normal and raising exits. -/
theorem innerLoop_vp {oG : GOracle R P} {oI : IOracle R P} {c : Ctx R P} :
    ∀ (fuel : ℕ) (st : FFSt R P) (s1 s3 : ℕ) (p3 : ℤ),
      (st.valid = true → VP c) →
      ((∀ st2 a b, innerLoop oG oI c fuel st s1 s3 p3 = .ok st2 a b →
        st2.valid = true → VP c) ∧
       (∀ st2, innerLoop oG oI c fuel st s1 s3 p3 = .err st2 →
        st2.valid = true → VP c)) := by
  intro fuel
  induction fuel with
  | zero =>
    intro st s1 s3 p3 hW
    constructor
    · intro st2 a b h
      unfold innerLoop at h
      split at h
      · exact absurd h (by simp)
      · cases h; exact hW
    · intro st2 h
      unfold innerLoop at h
      split at h
      · exact absurd h (by simp)
      · exact absurd h (by simp)
  | succ n ih =>
    intro st s1 s3 p3 hW
    constructor
    · intro st2 a b h
      unfold innerLoop at h
      split at h
      · dsimp only at h
        cases h2 : tryImproveMs oG oI c st with
        | error s => rw [h2] at h; exact absurd h (by simp)
        | ok t =>
          obtain ⟨st1, a1, b1⟩ := t
          rw [h2] at h
          exact (ih st1 a1 b1 _ (tryImprove_ok_vp h2 hW)).1 st2 a b h
      · cases h; exact hW
    · intro st2 h
      unfold innerLoop at h
      split at h
      · dsimp only at h
        cases h2 : tryImproveMs oG oI c st with
        | error s =>
          rw [h2] at h; cases h; exact tryImprove_err_vp h2 hW
        | ok t =>
          obtain ⟨st1, a1, b1⟩ := t
          rw [h2] at h
          exact (ih st1 a1 b1 _ (tryImprove_ok_vp h2 hW)).2 st2 h
      · exact absurd h (by simp)

/-- One `find_ms` iteration preserves the provenance of `self.valid`. -/
theorem fmIter_vp {oG : GOracle R P} {oI : IOracle R P} {c : Ctx R P}
    {fuel : ℕ} {fm fm1 : FMSt R P} (h : fmIter oG oI c fuel fm = some fm1)
    (hW : fm.st.valid = true → VP c) : fm1.st.valid = true → VP c := by
  unfold fmIter at h
  cases h2 : tryImproveMs oG oI c fm.st with
  | error s =>
    rw [h2] at h
    dsimp only at h
    cases h
    have hres := tryImprove_err_vp h2 hW
    exact hres
  | ok t =>
    obtain ⟨st1, a1, b1⟩ := t
    rw [h2] at h
    dsimp only at h
    have hW1 := tryImprove_ok_vp h2 hW
    cases h3 : innerLoop oG oI c fuel st1 a1 b1 (-1) with
    | spin => rw [h3] at h; exact absurd h (by simp)
    | err stE =>
      rw [h3] at h
      dsimp only at h
      cases h
      have hres := (innerLoop_vp fuel st1 a1 b1 (-1) hW1).2 stE h3
      exact hres
    | ok stOk a b =>
      rw [h3] at h
      dsimp only at h
      have hWok := (innerLoop_vp fuel st1 a1 b1 (-1) hW1).1 stOk a b h3
      split at h
      · cases h; exact hWok
      · cases h; exact hWok

/-- After `find_ms`, a raised `self.valid = True` flag always has a
checks-passing witness solution. -/
theorem findMs_vp {oG : GOracle R P} {oI : IOracle R P} {c : Ctx R P}
    {fuel : ℕ} {fm : FMSt R P} {ms : ℚ}
    (h : findMs oG oI c fuel = some (fm, ms)) :
    fm.st.valid = true → VP c := by
  unfold findMs at h
  split at h
  · exact absurd h (by simp)
  next fm2 hchain =>
    cases h
    rcases Option.bind_eq_some.mp hchain with ⟨f9, hc9, h9⟩
    rcases Option.bind_eq_some.mp hc9 with ⟨f8, hc8, h8⟩
    rcases Option.bind_eq_some.mp hc8 with ⟨f7, hc7, h7⟩
    rcases Option.bind_eq_some.mp hc7 with ⟨f6, hc6, h6⟩
    rcases Option.bind_eq_some.mp hc6 with ⟨f5, hc5, h5⟩
    rcases Option.bind_eq_some.mp hc5 with ⟨f4, hc4, h4⟩
    rcases Option.bind_eq_some.mp hc4 with ⟨f3, hc3, h3⟩
    rcases Option.bind_eq_some.mp hc3 with ⟨f2, hc2, h2⟩
    rcases Option.bind_eq_some.mp hc2 with ⟨f1, hc1, h1⟩
    have hW0 : (fmStart c).st.valid = true → VP c := by
      intro hv; cases hv
    exact fmIter_vp h9 (fmIter_vp h8 (fmIter_vp h7 (fmIter_vp h6 (fmIter_vp h5
      (fmIter_vp h4 (fmIter_vp h3 (fmIter_vp h2 (fmIter_vp h1
        (fmIter_vp hc1 hW0)))))))))

/-- In a context where some solution passes the checks and the zero
solution meets the demands, the zero solution passes the checks as well
(the witness must itself be the zero solution). -/
theorem checksHold_zero {c : Ctx R P} (hvp : VP c)
    (hdm : demandsMet c (zeroSol R P)) : checksHold c (zeroSol R P) := by
  obtain ⟨s, hs, hmax, hmin⟩ := hvp
  have hz : s = zeroSol R P := by
    funext i j
    show s i j = false
    have hcols : colSum s j = 0 := by
      rw [hs j, ← hdm j]
      simp [colSum, zeroSol]
    unfold colSum at hcols
    have hterm := (Finset.sum_eq_zero_iff_of_nonneg
      (fun i2 _ => by positivity)).mp hcols i (Finset.mem_univ i)
    by_contra hij
    simp only [Bool.not_eq_false] at hij
    rw [hij] at hterm
    exact one_ne_zero hterm
  exact hz ▸ ⟨hs, hmax, hmin⟩

/-- The final `solve` loop: when the input state is valid only if its
solution passes the checks, any normal return passes the checks. -/
theorem solveLoop_checks {oG : GOracle R P} {oI : IOracle R P}
    {c : Ctx R P} :
    ∀ (fuel : ℕ) (st : FFSt R P) (s1 s3 : ℕ) (p1 p3 : ℤ) (stF : FFSt R P),
      solveLoop oG oI c fuel st s1 s3 p1 p3 = .ok stF →
      (st.valid = true → checksHold c st.sol) → checksHold c stF.sol := by
  intro fuel
  induction fuel with
  | zero =>
    intro st s1 s3 p1 p3 stF h hP
    unfold solveLoop at h
    split at h
    · exact absurd h (by simp)
    · split at h
      next hv => cases h; exact hP hv
      · exact absurd h (by simp)
  | succ n ih =>
    intro st s1 s3 p1 p3 stF h hP
    unfold solveLoop at h
    split at h
    · dsimp only at h
      cases h2 : tryImproveMs oG oI c st with
      | error s => rw [h2] at h; exact absurd h (by simp)
      | ok t =>
        obtain ⟨st1, a, b⟩ := t
        rw [h2] at h
        exact ih st1 a b _ _ stF h
          (tryImprove_ok_checks h2 (fun hv _ => hP hv))
    · split at h
      next hv => cases h; exact hP hv
      · exact absurd h (by simp)

/-- A normally returning `try_improve_ms` call never lets the `g3` group
grow: the returned `s3` is the size of `g3` on the final state, and it is
bounded by the size of `g3` right after the entry normalisation (the
`old_g3` of the source); a growth of `g3` raises instead of returning. -/
theorem claim6_theorem {oG : GOracle R P} {oI : IOracle R P}
    {c : Ctx R P} {st st2 : FFSt R P} {a b : ℕ}
    (h : tryImproveMs oG oI c st = .ok (st2, a, b)) :
    ∃ stE, entryPhase oG c st = .ok stE ∧
      b = (grpPapsByMs c st2.sol st2.makespan).2.2.length ∧
      b ≤ (grpPapsByMs c stE.sol stE.makespan).2.2.length := by
  unfold tryImproveMs at h
  split at h
  · exact absurd h (by simp)
  next stE hE =>
    refine ⟨stE, hE, ?_⟩
    split at h
    · split at h
      · exact absurd h (by simp)
      next sol3 hI =>
        split at h
        · exact absurd h (by simp)
        next sol4 hV =>
          split at h
          · exact absurd h (by simp)
          next hgrow =>
            cases h
            exact ⟨rfl, Nat.le_of_not_lt hgrow⟩
    · cases h
      exact ⟨rfl, Nat.le_refl _⟩

theorem min_min_absorb (a b x : ℤ) :
    min (min a b) (min b x) = min a (min b x) := by
  rw [min_assoc, ← min_assoc b b x, min_self]

theorem posClamp_eq_max (z : ℤ) : (if 0 < z then z else 0) = max z 0 := by
  rcases lt_or_le 0 z with h | h
  · rw [if_pos h, max_eq_left h.le]
  · rw [if_neg (not_lt.mpr h), max_eq_right h]

/-- Invariant of the `_get_quota_arrays` edge fold: at every point the
minimum array is the global minimum capped by the current maximum, and
the maximum array is the specification's clamp-and-cap fold. -/
theorem quotaFold_spec (ids : List String) (minP : ℤ) :
    ∀ (edges : List (String × ℤ)) (mins maxs : ℕ → ℤ),
      (∀ k, mins k = min minP (maxs k)) →
      ∀ k,
        (edges.foldl (quotaStep ids) (mins, maxs)).2 k =
          edges.foldl (specClampStep ids k) (maxs k) ∧
        (edges.foldl (quotaStep ids) (mins, maxs)).1 k =
          min minP (edges.foldl (specClampStep ids k) (maxs k)) := by
  intro edges
  induction edges with
  | nil => intro mins maxs hinv k; exact ⟨rfl, hinv k⟩
  | cons e rest ih =>
    intro mins maxs hinv k
    simp only [List.foldl_cons]
    cases hl : lastIdx ids e.1 with
    | none =>
      have hq : quotaStep ids (mins, maxs) e = (mins, maxs) := by
        unfold quotaStep; rw [hl]
      have hc : specClampStep ids k (maxs k) e = maxs k := by
        unfold specClampStep; simp [hl]
      rw [hq, hc]
      exact ih mins maxs hinv k
    | some i =>
      have hq : quotaStep ids (mins, maxs) e =
          ((fun t => if t = i then
              min (mins i)
                (if i = i then min (maxs i) (if 0 < e.2 then e.2 else 0)
                 else maxs i)
            else mins t),
           (fun t => if t = i then min (maxs i) (if 0 < e.2 then e.2 else 0)
            else maxs t)) := by
        unfold quotaStep; rw [hl]
      rw [hq]
      have hM : ∀ t,
          (fun t => if t = i then min (maxs i) (if 0 < e.2 then e.2 else 0)
            else maxs t) t = specClampStep ids t (maxs t) e := by
        intro t
        show (if t = i then min (maxs i) (if 0 < e.2 then e.2 else 0)
          else maxs t) = specClampStep ids t (maxs t) e
        unfold specClampStep
        rw [hl]
        by_cases hk : t = i
        · subst hk
          rw [if_pos rfl, if_pos rfl, posClamp_eq_max]
        · rw [if_neg hk,
            if_neg (fun hcontra => hk (Option.some.inj hcontra).symm)]
      have hinv2 : ∀ t,
          (fun t => if t = i then
              min (mins i)
                (if i = i then min (maxs i) (if 0 < e.2 then e.2 else 0)
                 else maxs i)
            else mins t) t =
          min minP
            ((fun t => if t = i then min (maxs i) (if 0 < e.2 then e.2 else 0)
              else maxs t) t) := by
        intro t
        show (if t = i then
            min (mins i)
              (if i = i then min (maxs i) (if 0 < e.2 then e.2 else 0)
               else maxs i)
          else mins t) =
          min minP
            (if t = i then min (maxs i) (if 0 < e.2 then e.2 else 0)
             else maxs t)
        by_cases hk : t = i
        · subst hk
          rw [if_pos rfl, if_pos rfl, hinv t]
          exact min_min_absorb minP (maxs t) (if 0 < e.2 then e.2 else 0)
        · rw [if_neg hk, if_neg hk]
          exact hinv t
      have hih := ih _ _ hinv2 k
      have hMk : (if k = i then min (maxs i) (if 0 < e.2 then e.2 else 0)
          else maxs k) = specClampStep ids k (maxs k) e := hM k
      constructor
      · rw [hih.1]
        simp only [hMk]
      · rw [hih.2]
        simp only [hMk]

/-- The quota resolver path follows the specification's override rule
whenever the global bounds are coherent (`min_papers ≤ max_papers`). -/
theorem claim4_amended (minP maxP : ℤ) (reviewers : List String)
    (edges : List (String × ℤ)) (h : minP ≤ maxP) (k : ℕ) :
    (getQuotaArrays minP maxP reviewers edges).1 k =
      (specQuotaArrays minP maxP reviewers edges).1 k ∧
    (getQuotaArrays minP maxP reviewers edges).2 k =
      (specQuotaArrays minP maxP reviewers edges).2 k := by
  have hbase : ∀ k2 : ℕ, (fun _ : ℕ => minP) k2 = min minP ((fun _ : ℕ => maxP) k2) :=
    fun _ => (min_eq_left h).symm
  have hmain := quotaFold_spec reviewers minP edges
    (fun _ => minP) (fun _ => maxP) hbase k
  exact ⟨hmain.2, hmain.1⟩

/-- A fold whose step ignores edges with unknown ids equals the fold
over the filtered edge list. -/
theorem foldl_skip_filter {σ : Type _} (ids : List String)
    (f : σ → (String × ℤ) → σ)
    (hskip : ∀ s e, lastIdx ids e.1 = none → f s e = s) :
    ∀ (edges : List (String × ℤ)) (s : σ),
      edges.foldl f s =
        (edges.filter fun e => (lastIdx ids e.1).isSome).foldl f s := by
  intro edges
  induction edges with
  | nil => intro s; rfl
  | cons e rest ih =>
    intro s
    simp only [List.foldl_cons, List.filter_cons]
    cases hl : lastIdx ids e.1 with
    | none =>
      rw [hskip s e hl]
      rw [if_neg (by simp)]
      exact ih s
    | some i =>
      rw [if_pos (by simp)]
      simp only [List.foldl_cons]
      exact ih (f s e)

/-- Any normally returning run of `solve` (constructed without an
initial solution) returns an assignment meeting every paper's demand
exactly and every reviewer's load bounds, with the minimum loads as
adjusted by `__init__`. -/
theorem solveFF_ok_checks {oG : GOracle R P} {oI : IOracle R P}
    {c : Ctx R P} {fI fL : ℕ} {st : FFSt R P}
    (h : solveFF oG oI c fI fL = .ok st) : checksHold c st.sol := by
  unfold solveFF at h
  split at h
  · split at h
    · exact absurd h (by simp)
    next fm ms hfm =>
      have hz : fm.st.sol = zeroSol R P := findMs_sol_zero hfm
      have hvp : fm.st.valid = true → VP c := findMs_vp hfm
      split at h
      · exact absurd h (by simp)
      next st1 a b htry =>
        refine solveLoop_checks fL st1 a b _ _ st h ?_
        refine tryImprove_ok_checks htry ?_
        intro hv hdm
        show checksHold c ({ fm.st with makespan := ms } : FFSt R P).sol
        have hdm2 : demandsMet c (zeroSol R P) := by
          show demandsMet c (zeroSol R P)
          have : ({ fm.st with makespan := ms } : FFSt R P).sol = zeroSol R P := hz
          rw [this] at hdm
          exact hdm
        have := checksHold_zero (hvp hv) hdm2
        show checksHold c fm.st.sol
        rw [hz]
        exact this
  · exact absurd h (by simp)

/-- Concrete evaluation of the `affC1` run: reviewer 0 is assigned, reviewer 1 (whose passed minimum load is 1) reviews nothing. -/
theorem runC1eval : runC1 = .ok ⟨fun i _ => decide (i.val = 0), true, (1023 : ℚ)/1024⟩ := by
  have h0 : fmIter bestGOracle noneIOracle ctxC1 4 (fmStart ctxC1) =
      some ⟨(1 : ℚ)/2, (1 : ℚ)/1, (3 : ℚ)/4, some ((1 : ℚ)/2), (1 : ℚ), ⟨zeroSol 2 1, true, (3 : ℚ)/4⟩⟩ := by decide
  have h1 : fmIter bestGOracle noneIOracle ctxC1 4 (⟨(1 : ℚ)/2, (1 : ℚ)/1, (3 : ℚ)/4, some ((1 : ℚ)/2), (1 : ℚ), ⟨zeroSol 2 1, true, (3 : ℚ)/4⟩⟩ : FMSt 2 1) =
      some ⟨(3 : ℚ)/4, (1 : ℚ)/1, (7 : ℚ)/8, some ((3 : ℚ)/4), (1 : ℚ), ⟨zeroSol 2 1, true, (7 : ℚ)/8⟩⟩ := by decide
  have h2 : fmIter bestGOracle noneIOracle ctxC1 4 (⟨(3 : ℚ)/4, (1 : ℚ)/1, (7 : ℚ)/8, some ((3 : ℚ)/4), (1 : ℚ), ⟨zeroSol 2 1, true, (7 : ℚ)/8⟩⟩ : FMSt 2 1) =
      some ⟨(7 : ℚ)/8, (1 : ℚ)/1, (15 : ℚ)/16, some ((7 : ℚ)/8), (1 : ℚ), ⟨zeroSol 2 1, true, (15 : ℚ)/16⟩⟩ := by decide
  have h3 : fmIter bestGOracle noneIOracle ctxC1 4 (⟨(7 : ℚ)/8, (1 : ℚ)/1, (15 : ℚ)/16, some ((7 : ℚ)/8), (1 : ℚ), ⟨zeroSol 2 1, true, (15 : ℚ)/16⟩⟩ : FMSt 2 1) =
      some ⟨(15 : ℚ)/16, (1 : ℚ)/1, (31 : ℚ)/32, some ((15 : ℚ)/16), (1 : ℚ), ⟨zeroSol 2 1, true, (31 : ℚ)/32⟩⟩ := by decide
  have h4 : fmIter bestGOracle noneIOracle ctxC1 4 (⟨(15 : ℚ)/16, (1 : ℚ)/1, (31 : ℚ)/32, some ((15 : ℚ)/16), (1 : ℚ), ⟨zeroSol 2 1, true, (31 : ℚ)/32⟩⟩ : FMSt 2 1) =
      some ⟨(31 : ℚ)/32, (1 : ℚ)/1, (63 : ℚ)/64, some ((31 : ℚ)/32), (1 : ℚ), ⟨zeroSol 2 1, true, (63 : ℚ)/64⟩⟩ := by decide
  have h5 : fmIter bestGOracle noneIOracle ctxC1 4 (⟨(31 : ℚ)/32, (1 : ℚ)/1, (63 : ℚ)/64, some ((31 : ℚ)/32), (1 : ℚ), ⟨zeroSol 2 1, true, (63 : ℚ)/64⟩⟩ : FMSt 2 1) =
      some ⟨(63 : ℚ)/64, (1 : ℚ)/1, (127 : ℚ)/128, some ((63 : ℚ)/64), (1 : ℚ), ⟨zeroSol 2 1, true, (127 : ℚ)/128⟩⟩ := by decide
  have h6 : fmIter bestGOracle noneIOracle ctxC1 4 (⟨(63 : ℚ)/64, (1 : ℚ)/1, (127 : ℚ)/128, some ((63 : ℚ)/64), (1 : ℚ), ⟨zeroSol 2 1, true, (127 : ℚ)/128⟩⟩ : FMSt 2 1) =
      some ⟨(127 : ℚ)/128, (1 : ℚ)/1, (255 : ℚ)/256, some ((127 : ℚ)/128), (1 : ℚ), ⟨zeroSol 2 1, true, (255 : ℚ)/256⟩⟩ := by decide
  have h7 : fmIter bestGOracle noneIOracle ctxC1 4 (⟨(127 : ℚ)/128, (1 : ℚ)/1, (255 : ℚ)/256, some ((127 : ℚ)/128), (1 : ℚ), ⟨zeroSol 2 1, true, (255 : ℚ)/256⟩⟩ : FMSt 2 1) =
      some ⟨(255 : ℚ)/256, (1 : ℚ)/1, (511 : ℚ)/512, some ((255 : ℚ)/256), (1 : ℚ), ⟨zeroSol 2 1, true, (511 : ℚ)/512⟩⟩ := by decide
  have h8 : fmIter bestGOracle noneIOracle ctxC1 4 (⟨(255 : ℚ)/256, (1 : ℚ)/1, (511 : ℚ)/512, some ((255 : ℚ)/256), (1 : ℚ), ⟨zeroSol 2 1, true, (511 : ℚ)/512⟩⟩ : FMSt 2 1) =
      some ⟨(511 : ℚ)/512, (1 : ℚ)/1, (1023 : ℚ)/1024, some ((511 : ℚ)/512), (1 : ℚ), ⟨zeroSol 2 1, true, (1023 : ℚ)/1024⟩⟩ := by decide
  have h9 : fmIter bestGOracle noneIOracle ctxC1 4 (⟨(511 : ℚ)/512, (1 : ℚ)/1, (1023 : ℚ)/1024, some ((511 : ℚ)/512), (1 : ℚ), ⟨zeroSol 2 1, true, (1023 : ℚ)/1024⟩⟩ : FMSt 2 1) =
      some ⟨(1023 : ℚ)/1024, (1 : ℚ)/1, (2047 : ℚ)/2048, some ((1023 : ℚ)/1024), (1 : ℚ), ⟨zeroSol 2 1, true, (2047 : ℚ)/2048⟩⟩ := by decide
  show solveFF bestGOracle noneIOracle ctxC1 4 4 = _
  unfold solveFF findMs
  rw [if_pos (show validRange ctxC1 by decide)]
  rw [h0, optSomeBind, h1, optSomeBind, h2, optSomeBind, h3, optSomeBind, h4,
    optSomeBind, h5, optSomeBind, h6, optSomeBind, h7, optSomeBind, h8,
    optSomeBind, h9]
  decide

/-- Concrete evaluation of the lock run: the locked pair (reviewer 0, paper 0) is never assigned; reviewer 1 covers the paper. -/
theorem runC2eval : runC2 = .ok ⟨fun i _ => decide (i.val = 1), true, (1023 : ℚ)/1024⟩ := by
  have h0 : fmIter bestGOracle noneIOracle ctxC2 4 (fmStart ctxC2) =
      some ⟨(1 : ℚ)/2, (1 : ℚ)/1, (3 : ℚ)/4, some ((1 : ℚ)/2), (1 : ℚ), ⟨zeroSol 2 1, true, (3 : ℚ)/4⟩⟩ := by decide
  have h1 : fmIter bestGOracle noneIOracle ctxC2 4 (⟨(1 : ℚ)/2, (1 : ℚ)/1, (3 : ℚ)/4, some ((1 : ℚ)/2), (1 : ℚ), ⟨zeroSol 2 1, true, (3 : ℚ)/4⟩⟩ : FMSt 2 1) =
      some ⟨(3 : ℚ)/4, (1 : ℚ)/1, (7 : ℚ)/8, some ((3 : ℚ)/4), (1 : ℚ), ⟨zeroSol 2 1, true, (7 : ℚ)/8⟩⟩ := by decide
  have h2 : fmIter bestGOracle noneIOracle ctxC2 4 (⟨(3 : ℚ)/4, (1 : ℚ)/1, (7 : ℚ)/8, some ((3 : ℚ)/4), (1 : ℚ), ⟨zeroSol 2 1, true, (7 : ℚ)/8⟩⟩ : FMSt 2 1) =
      some ⟨(7 : ℚ)/8, (1 : ℚ)/1, (15 : ℚ)/16, some ((7 : ℚ)/8), (1 : ℚ), ⟨zeroSol 2 1, true, (15 : ℚ)/16⟩⟩ := by decide
  have h3 : fmIter bestGOracle noneIOracle ctxC2 4 (⟨(7 : ℚ)/8, (1 : ℚ)/1, (15 : ℚ)/16, some ((7 : ℚ)/8), (1 : ℚ), ⟨zeroSol 2 1, true, (15 : ℚ)/16⟩⟩ : FMSt 2 1) =
      some ⟨(15 : ℚ)/16, (1 : ℚ)/1, (31 : ℚ)/32, some ((15 : ℚ)/16), (1 : ℚ), ⟨zeroSol 2 1, true, (31 : ℚ)/32⟩⟩ := by decide
  have h4 : fmIter bestGOracle noneIOracle ctxC2 4 (⟨(15 : ℚ)/16, (1 : ℚ)/1, (31 : ℚ)/32, some ((15 : ℚ)/16), (1 : ℚ), ⟨zeroSol 2 1, true, (31 : ℚ)/32⟩⟩ : FMSt 2 1) =
      some ⟨(31 : ℚ)/32, (1 : ℚ)/1, (63 : ℚ)/64, some ((31 : ℚ)/32), (1 : ℚ), ⟨zeroSol 2 1, true, (63 : ℚ)/64⟩⟩ := by decide
  have h5 : fmIter bestGOracle noneIOracle ctxC2 4 (⟨(31 : ℚ)/32, (1 : ℚ)/1, (63 : ℚ)/64, some ((31 : ℚ)/32), (1 : ℚ), ⟨zeroSol 2 1, true, (63 : ℚ)/64⟩⟩ : FMSt 2 1) =
      some ⟨(63 : ℚ)/64, (1 : ℚ)/1, (127 : ℚ)/128, some ((63 : ℚ)/64), (1 : ℚ), ⟨zeroSol 2 1, true, (127 : ℚ)/128⟩⟩ := by decide
  have h6 : fmIter bestGOracle noneIOracle ctxC2 4 (⟨(63 : ℚ)/64, (1 : ℚ)/1, (127 : ℚ)/128, some ((63 : ℚ)/64), (1 : ℚ), ⟨zeroSol 2 1, true, (127 : ℚ)/128⟩⟩ : FMSt 2 1) =
      some ⟨(127 : ℚ)/128, (1 : ℚ)/1, (255 : ℚ)/256, some ((127 : ℚ)/128), (1 : ℚ), ⟨zeroSol 2 1, true, (255 : ℚ)/256⟩⟩ := by decide
  have h7 : fmIter bestGOracle noneIOracle ctxC2 4 (⟨(127 : ℚ)/128, (1 : ℚ)/1, (255 : ℚ)/256, some ((127 : ℚ)/128), (1 : ℚ), ⟨zeroSol 2 1, true, (255 : ℚ)/256⟩⟩ : FMSt 2 1) =
      some ⟨(255 : ℚ)/256, (1 : ℚ)/1, (511 : ℚ)/512, some ((255 : ℚ)/256), (1 : ℚ), ⟨zeroSol 2 1, true, (511 : ℚ)/512⟩⟩ := by decide
  have h8 : fmIter bestGOracle noneIOracle ctxC2 4 (⟨(255 : ℚ)/256, (1 : ℚ)/1, (511 : ℚ)/512, some ((255 : ℚ)/256), (1 : ℚ), ⟨zeroSol 2 1, true, (511 : ℚ)/512⟩⟩ : FMSt 2 1) =
      some ⟨(511 : ℚ)/512, (1 : ℚ)/1, (1023 : ℚ)/1024, some ((511 : ℚ)/512), (1 : ℚ), ⟨zeroSol 2 1, true, (1023 : ℚ)/1024⟩⟩ := by decide
  have h9 : fmIter bestGOracle noneIOracle ctxC2 4 (⟨(511 : ℚ)/512, (1 : ℚ)/1, (1023 : ℚ)/1024, some ((511 : ℚ)/512), (1 : ℚ), ⟨zeroSol 2 1, true, (1023 : ℚ)/1024⟩⟩ : FMSt 2 1) =
      some ⟨(1023 : ℚ)/1024, (1 : ℚ)/1, (2047 : ℚ)/2048, some ((1023 : ℚ)/1024), (1 : ℚ), ⟨zeroSol 2 1, true, (2047 : ℚ)/2048⟩⟩ := by decide
  show solveFF bestGOracle noneIOracle ctxC2 4 4 = _
  unfold solveFF findMs
  rw [if_pos (show validRange ctxC2 by decide)]
  rw [h0, optSomeBind, h1, optSomeBind, h2, optSomeBind, h3, optSomeBind, h4,
    optSomeBind, h5, optSomeBind, h6, optSomeBind, h7, optSomeBind, h8,
    optSomeBind, h9]
  decide

/-- Concrete evaluation of the all-zero-affinity run under draw `randA`: reviewer 0 (the larger draw) is assigned. -/
theorem runZAeval : runZA = .ok ⟨fun i _ => decide (i.val = 0), true, (1023 : ℚ)/2048⟩ := by
  have h0 : fmIter bestGOracle noneIOracle ctxZA 4 (fmStart ctxZA) =
      some ⟨(1 : ℚ)/4, (1 : ℚ)/2, (3 : ℚ)/8, some ((1 : ℚ)/4), (1 : ℚ)/2, ⟨zeroSol 2 1, true, (3 : ℚ)/8⟩⟩ := by decide
  have h1 : fmIter bestGOracle noneIOracle ctxZA 4 (⟨(1 : ℚ)/4, (1 : ℚ)/2, (3 : ℚ)/8, some ((1 : ℚ)/4), (1 : ℚ)/2, ⟨zeroSol 2 1, true, (3 : ℚ)/8⟩⟩ : FMSt 2 1) =
      some ⟨(3 : ℚ)/8, (1 : ℚ)/2, (7 : ℚ)/16, some ((3 : ℚ)/8), (1 : ℚ)/2, ⟨zeroSol 2 1, true, (7 : ℚ)/16⟩⟩ := by decide
  have h2 : fmIter bestGOracle noneIOracle ctxZA 4 (⟨(3 : ℚ)/8, (1 : ℚ)/2, (7 : ℚ)/16, some ((3 : ℚ)/8), (1 : ℚ)/2, ⟨zeroSol 2 1, true, (7 : ℚ)/16⟩⟩ : FMSt 2 1) =
      some ⟨(7 : ℚ)/16, (1 : ℚ)/2, (15 : ℚ)/32, some ((7 : ℚ)/16), (1 : ℚ)/2, ⟨zeroSol 2 1, true, (15 : ℚ)/32⟩⟩ := by decide
  have h3 : fmIter bestGOracle noneIOracle ctxZA 4 (⟨(7 : ℚ)/16, (1 : ℚ)/2, (15 : ℚ)/32, some ((7 : ℚ)/16), (1 : ℚ)/2, ⟨zeroSol 2 1, true, (15 : ℚ)/32⟩⟩ : FMSt 2 1) =
      some ⟨(15 : ℚ)/32, (1 : ℚ)/2, (31 : ℚ)/64, some ((15 : ℚ)/32), (1 : ℚ)/2, ⟨zeroSol 2 1, true, (31 : ℚ)/64⟩⟩ := by decide
  have h4 : fmIter bestGOracle noneIOracle ctxZA 4 (⟨(15 : ℚ)/32, (1 : ℚ)/2, (31 : ℚ)/64, some ((15 : ℚ)/32), (1 : ℚ)/2, ⟨zeroSol 2 1, true, (31 : ℚ)/64⟩⟩ : FMSt 2 1) =
      some ⟨(31 : ℚ)/64, (1 : ℚ)/2, (63 : ℚ)/128, some ((31 : ℚ)/64), (1 : ℚ)/2, ⟨zeroSol 2 1, true, (63 : ℚ)/128⟩⟩ := by decide
  have h5 : fmIter bestGOracle noneIOracle ctxZA 4 (⟨(31 : ℚ)/64, (1 : ℚ)/2, (63 : ℚ)/128, some ((31 : ℚ)/64), (1 : ℚ)/2, ⟨zeroSol 2 1, true, (63 : ℚ)/128⟩⟩ : FMSt 2 1) =
      some ⟨(63 : ℚ)/128, (1 : ℚ)/2, (127 : ℚ)/256, some ((63 : ℚ)/128), (1 : ℚ)/2, ⟨zeroSol 2 1, true, (127 : ℚ)/256⟩⟩ := by decide
  have h6 : fmIter bestGOracle noneIOracle ctxZA 4 (⟨(63 : ℚ)/128, (1 : ℚ)/2, (127 : ℚ)/256, some ((63 : ℚ)/128), (1 : ℚ)/2, ⟨zeroSol 2 1, true, (127 : ℚ)/256⟩⟩ : FMSt 2 1) =
      some ⟨(127 : ℚ)/256, (1 : ℚ)/2, (255 : ℚ)/512, some ((127 : ℚ)/256), (1 : ℚ)/2, ⟨zeroSol 2 1, true, (255 : ℚ)/512⟩⟩ := by decide
  have h7 : fmIter bestGOracle noneIOracle ctxZA 4 (⟨(127 : ℚ)/256, (1 : ℚ)/2, (255 : ℚ)/512, some ((127 : ℚ)/256), (1 : ℚ)/2, ⟨zeroSol 2 1, true, (255 : ℚ)/512⟩⟩ : FMSt 2 1) =
      some ⟨(255 : ℚ)/512, (1 : ℚ)/2, (511 : ℚ)/1024, some ((255 : ℚ)/512), (1 : ℚ)/2, ⟨zeroSol 2 1, true, (511 : ℚ)/1024⟩⟩ := by decide
  have h8 : fmIter bestGOracle noneIOracle ctxZA 4 (⟨(255 : ℚ)/512, (1 : ℚ)/2, (511 : ℚ)/1024, some ((255 : ℚ)/512), (1 : ℚ)/2, ⟨zeroSol 2 1, true, (511 : ℚ)/1024⟩⟩ : FMSt 2 1) =
      some ⟨(511 : ℚ)/1024, (1 : ℚ)/2, (1023 : ℚ)/2048, some ((511 : ℚ)/1024), (1 : ℚ)/2, ⟨zeroSol 2 1, true, (1023 : ℚ)/2048⟩⟩ := by decide
  have h9 : fmIter bestGOracle noneIOracle ctxZA 4 (⟨(511 : ℚ)/1024, (1 : ℚ)/2, (1023 : ℚ)/2048, some ((511 : ℚ)/1024), (1 : ℚ)/2, ⟨zeroSol 2 1, true, (1023 : ℚ)/2048⟩⟩ : FMSt 2 1) =
      some ⟨(1023 : ℚ)/2048, (1 : ℚ)/2, (2047 : ℚ)/4096, some ((1023 : ℚ)/2048), (1 : ℚ)/2, ⟨zeroSol 2 1, true, (2047 : ℚ)/4096⟩⟩ := by decide
  show solveFF bestGOracle noneIOracle ctxZA 4 4 = _
  unfold solveFF findMs
  rw [if_pos (show validRange ctxZA by decide)]
  rw [h0, optSomeBind, h1, optSomeBind, h2, optSomeBind, h3, optSomeBind, h4,
    optSomeBind, h5, optSomeBind, h6, optSomeBind, h7, optSomeBind, h8,
    optSomeBind, h9]
  decide

/-- Concrete evaluation of the all-zero-affinity run under draw `randB`: reviewer 1 (the larger draw) is assigned. -/
theorem runZBeval : runZB = .ok ⟨fun i _ => decide (i.val = 1), true, (1023 : ℚ)/2048⟩ := by
  have h0 : fmIter bestGOracle noneIOracle ctxZB 4 (fmStart ctxZB) =
      some ⟨(1 : ℚ)/4, (1 : ℚ)/2, (3 : ℚ)/8, some ((1 : ℚ)/4), (1 : ℚ)/2, ⟨zeroSol 2 1, true, (3 : ℚ)/8⟩⟩ := by decide
  have h1 : fmIter bestGOracle noneIOracle ctxZB 4 (⟨(1 : ℚ)/4, (1 : ℚ)/2, (3 : ℚ)/8, some ((1 : ℚ)/4), (1 : ℚ)/2, ⟨zeroSol 2 1, true, (3 : ℚ)/8⟩⟩ : FMSt 2 1) =
      some ⟨(3 : ℚ)/8, (1 : ℚ)/2, (7 : ℚ)/16, some ((3 : ℚ)/8), (1 : ℚ)/2, ⟨zeroSol 2 1, true, (7 : ℚ)/16⟩⟩ := by decide
  have h2 : fmIter bestGOracle noneIOracle ctxZB 4 (⟨(3 : ℚ)/8, (1 : ℚ)/2, (7 : ℚ)/16, some ((3 : ℚ)/8), (1 : ℚ)/2, ⟨zeroSol 2 1, true, (7 : ℚ)/16⟩⟩ : FMSt 2 1) =
      some ⟨(7 : ℚ)/16, (1 : ℚ)/2, (15 : ℚ)/32, some ((7 : ℚ)/16), (1 : ℚ)/2, ⟨zeroSol 2 1, true, (15 : ℚ)/32⟩⟩ := by decide
  have h3 : fmIter bestGOracle noneIOracle ctxZB 4 (⟨(7 : ℚ)/16, (1 : ℚ)/2, (15 : ℚ)/32, some ((7 : ℚ)/16), (1 : ℚ)/2, ⟨zeroSol 2 1, true, (15 : ℚ)/32⟩⟩ : FMSt 2 1) =
      some ⟨(15 : ℚ)/32, (1 : ℚ)/2, (31 : ℚ)/64, some ((15 : ℚ)/32), (1 : ℚ)/2, ⟨zeroSol 2 1, true, (31 : ℚ)/64⟩⟩ := by decide
  have h4 : fmIter bestGOracle noneIOracle ctxZB 4 (⟨(15 : ℚ)/32, (1 : ℚ)/2, (31 : ℚ)/64, some ((15 : ℚ)/32), (1 : ℚ)/2, ⟨zeroSol 2 1, true, (31 : ℚ)/64⟩⟩ : FMSt 2 1) =
      some ⟨(31 : ℚ)/64, (1 : ℚ)/2, (63 : ℚ)/128, some ((31 : ℚ)/64), (1 : ℚ)/2, ⟨zeroSol 2 1, true, (63 : ℚ)/128⟩⟩ := by decide
  have h5 : fmIter bestGOracle noneIOracle ctxZB 4 (⟨(31 : ℚ)/64, (1 : ℚ)/2, (63 : ℚ)/128, some ((31 : ℚ)/64), (1 : ℚ)/2, ⟨zeroSol 2 1, true, (63 : ℚ)/128⟩⟩ : FMSt 2 1) =
      some ⟨(63 : ℚ)/128, (1 : ℚ)/2, (127 : ℚ)/256, some ((63 : ℚ)/128), (1 : ℚ)/2, ⟨zeroSol 2 1, true, (127 : ℚ)/256⟩⟩ := by decide
  have h6 : fmIter bestGOracle noneIOracle ctxZB 4 (⟨(63 : ℚ)/128, (1 : ℚ)/2, (127 : ℚ)/256, some ((63 : ℚ)/128), (1 : ℚ)/2, ⟨zeroSol 2 1, true, (127 : ℚ)/256⟩⟩ : FMSt 2 1) =
      some ⟨(127 : ℚ)/256, (1 : ℚ)/2, (255 : ℚ)/512, some ((127 : ℚ)/256), (1 : ℚ)/2, ⟨zeroSol 2 1, true, (255 : ℚ)/512⟩⟩ := by decide
  have h7 : fmIter bestGOracle noneIOracle ctxZB 4 (⟨(127 : ℚ)/256, (1 : ℚ)/2, (255 : ℚ)/512, some ((127 : ℚ)/256), (1 : ℚ)/2, ⟨zeroSol 2 1, true, (255 : ℚ)/512⟩⟩ : FMSt 2 1) =
      some ⟨(255 : ℚ)/512, (1 : ℚ)/2, (511 : ℚ)/1024, some ((255 : ℚ)/512), (1 : ℚ)/2, ⟨zeroSol 2 1, true, (511 : ℚ)/1024⟩⟩ := by decide
  have h8 : fmIter bestGOracle noneIOracle ctxZB 4 (⟨(255 : ℚ)/512, (1 : ℚ)/2, (511 : ℚ)/1024, some ((255 : ℚ)/512), (1 : ℚ)/2, ⟨zeroSol 2 1, true, (511 : ℚ)/1024⟩⟩ : FMSt 2 1) =
      some ⟨(511 : ℚ)/1024, (1 : ℚ)/2, (1023 : ℚ)/2048, some ((511 : ℚ)/1024), (1 : ℚ)/2, ⟨zeroSol 2 1, true, (1023 : ℚ)/2048⟩⟩ := by decide
  have h9 : fmIter bestGOracle noneIOracle ctxZB 4 (⟨(511 : ℚ)/1024, (1 : ℚ)/2, (1023 : ℚ)/2048, some ((511 : ℚ)/1024), (1 : ℚ)/2, ⟨zeroSol 2 1, true, (1023 : ℚ)/2048⟩⟩ : FMSt 2 1) =
      some ⟨(1023 : ℚ)/2048, (1 : ℚ)/2, (2047 : ℚ)/4096, some ((1023 : ℚ)/2048), (1 : ℚ)/2, ⟨zeroSol 2 1, true, (2047 : ℚ)/4096⟩⟩ := by decide
  show solveFF bestGOracle noneIOracle ctxZB 4 4 = _
  unfold solveFF findMs
  rw [if_pos (show validRange ctxZB by decide)]
  rw [h0, optSomeBind, h1, optSomeBind, h2, optSomeBind, h3, optSomeBind, h4,
    optSomeBind, h5, optSomeBind, h6, optSomeBind, h7, optSomeBind, h8,
    optSomeBind, h9]
  decide

/-! ## Claim theorems -/

/-- C1, counterexample: a run of `FairFlow.solve` on the `affC1` instance
returns normally, but reviewer 1 reviews 0 papers while the minimum load
passed to the solver was 1 — `__init__` zeroed it because reviewer 1 has
no nonzero affinity.  The claim's load lower bound with respect to the
minimums passed to the solver is therefore false. -/
theorem claim1_counterexample :
    solveFF bestGOracle noneIOracle ctxC1 4 4 =
      .ok ⟨fun i _ => decide (i.val = 0), true, (1023 : ℚ)/1024⟩ ∧
    ctxC1 = mkCtx minsC1 (fun _ => 1) (fun _ => 1) affC1 freeK false
      (fun _ _ => 0) ∧
    minsC1 1 = 1 ∧
    rowSum (fun (i : Fin 2) (_ : Fin 1) => decide (i.val = 0)) 1 = 0 :=
  ⟨runC1eval, rfl, rfl, by decide⟩

/-- C1, amended: every normally returning run of `FairFlow.solve`
(constructed with `solution=None`) meets every paper's demand exactly and
keeps every reviewer's load at most the passed maximum and at least the
minimum as adjusted by `__init__` (which zeroes the minimum of reviewers
with no usable nonzero affinity when zero-score assignments are
disallowed). -/
theorem claim1_amended {R P : ℕ} (minimums maximums : Fin R → ℤ)
    (demands : Fin P → ℤ) (A : Fin R → Fin P → ℚ) (K : Fin P → Fin R → ℤ)
    (az : Bool) (rand : Fin R → Fin P → ℚ) (oG : GOracle R P)
    (oI : IOracle R P) (fI fL : ℕ) (st : FFSt R P)
    (h : solveFF oG oI (mkCtx minimums maximums demands A K az rand) fI fL =
      .ok st) :
    (∀ j, colSum st.sol j = demands j) ∧
    (∀ i, rowSum st.sol i ≤ maximums i) ∧
    (∀ i, (mkCtx minimums maximums demands A K az rand).minimums i ≤
      rowSum st.sol i) := by
  have hc := solveFF_ok_checks h
  exact ⟨hc.1, hc.2.1, hc.2.2⟩

/-- C1, witness: the amended claim applied to the concrete `affC1` run. -/
theorem claim1_witness :
    (∀ j, colSum (fun (i : Fin 2) (_ : Fin 1) => decide (i.val = 0)) j = 1) ∧
    (∀ i : Fin 2,
      rowSum (fun (i2 : Fin 2) (_ : Fin 1) => decide (i2.val = 0)) i ≤ 1) ∧
    (∀ i : Fin 2,
      (mkCtx minsC1 (fun _ => 1) (fun _ => 1) affC1 freeK false
        (fun _ _ => 0)).minimums i ≤
      rowSum (fun (i2 : Fin 2) (_ : Fin 1) => decide (i2.val = 0)) i) :=
  claim1_amended minsC1 (fun _ => 1) (fun _ => 1) affC1 freeK false
    (fun _ _ => 0) bestGOracle noneIOracle 4 4
    ⟨fun i _ => decide (i.val = 0), true, (1023 : ℚ)/1024⟩ runC1eval

/-- C2, counterexample: on the lock instance (`K[paper 0, reviewer 0] =
+1`) the solver returns normally with the locked pair unassigned —
positive constraints are not forced into the solution. -/
theorem claim2_counterexample :
    isOk runC2 = true ∧ ctxC2.K 0 0 = 1 ∧ okEntry runC2 0 0 = some false :=
  ⟨by rw [runC2eval]; rfl, rfl, by rw [runC2eval]; rfl⟩

/-- C2, amended: `FairFlow` never assigns a pair whose constraint entry
is `+1`: no reviewer→paper arc is ever built for a nonzero constraint,
so locked pairs end with `S[r, p] = 0` in every normally returning run. -/
theorem claim2_amended {R P : ℕ} (oG : GOracle R P) (oI : IOracle R P)
    (c : Ctx R P) (fI fL : ℕ) (st : FFSt R P)
    (h : solveFF oG oI c fI fL = .ok st) :
    ∀ i j, c.K j i = 1 → st.sol i j = false := by
  have hB : ∀ (s2 : Sol R P) i j, c.K j i = 1 → graphArcs c s2 i j = false := by
    intro s2 i j hb
    unfold graphArcs
    simp [hb]
  have hA : ∀ (s : Sol R P) (ms2 : ℚ) (a1 a2 a3 : List (Fin P)) i j,
      c.K j i = 1 → assignArcs c s ms2 a1 a2 a3 i j = false := by
    intro s ms2 a1 a2 a3 i j hb
    unfold assignArcs g2DummyArc g3Arc
    simp [hb]
  exact solveFF_ok_avoids hB hA h

/-- C2, witness: the amended claim applied to the concrete lock run. -/
theorem claim2_witness :
    ctxC2.K 0 0 = 1 ∧
    (∀ i j, ctxC2.K j i = 1 →
      (⟨fun i2 _ => decide (i2.val = 1), true, (1023 : ℚ)/1024⟩ :
        FFSt 2 1).sol i j = false) :=
  ⟨rfl, claim2_amended bestGOracle noneIOracle ctxC2 4 4
    ⟨fun i2 _ => decide (i2.val = 1), true, (1023 : ℚ)/1024⟩ runC2eval⟩

/-- C3, counterexample: with `allow_zero_score_assignments = False` and
an entirely zero supplied affinity matrix, the constructor substitutes
the random matrix and the solver returns normally with an assigned pair
whose supplied aggregate affinity is zero. -/
theorem claim3_counterexample :
    ctxZA = mkCtx (fun _ => 0) (fun _ => 1) (fun _ => 1) affZero freeK
      false randA ∧
    ctxZA.allowZero = false ∧
    isOk runZA = true ∧ okEntry runZA 0 0 = some true ∧ affZero 0 0 = 0 :=
  ⟨rfl, rfl, by rw [runZAeval]; rfl, by rw [runZAeval]; rfl, rfl⟩

/-- C3, amended: when `allow_zero_score_assignments = False` and the
supplied affinity matrix is not entirely zero (so the random replacement
does not fire), every pair assigned by a normally returning run has
nonzero supplied affinity. -/
theorem claim3_amended {R P : ℕ} (minimums maximums : Fin R → ℤ)
    (demands : Fin P → ℤ) (A : Fin R → Fin P → ℚ) (K : Fin P → Fin R → ℤ)
    (rand : Fin R → Fin P → ℚ) (oG : GOracle R P) (oI : IOracle R P)
    (fI fL : ℕ) (st : FFSt R P) (hA0 : ¬ ∀ i j, A i j = 0)
    (h : solveFF oG oI (mkCtx minimums maximums demands A K false rand)
      fI fL = .ok st) :
    ∀ i j, st.sol i j = true → A i j ≠ 0 := by
  have heff : (mkCtx minimums maximums demands A K false rand).eff = A := by
    unfold mkCtx
    exact if_neg hA0
  have hB : ∀ (s2 : Sol R P) i j, A i j = 0 →
      graphArcs (mkCtx minimums maximums demands A K false rand) s2 i j =
        false := by
    intro s2 i j hb
    unfold graphArcs
    have he : (mkCtx minimums maximums demands A K false rand).eff i j = 0 := by
      rw [heff]; exact hb
    have hz : (mkCtx minimums maximums demands A K false rand).allowZero =
        false := rfl
    simp [he, hz]
  have hAA : ∀ (s : Sol R P) (ms2 : ℚ) (a1 a2 a3 : List (Fin P)) i j,
      A i j = 0 →
      assignArcs (mkCtx minimums maximums demands A K false rand) s ms2
        a1 a2 a3 i j = false := by
    intro s ms2 a1 a2 a3 i j hb
    unfold assignArcs g2DummyArc g3Arc
    have he : (mkCtx minimums maximums demands A K false rand).eff i j = 0 := by
      rw [heff]; exact hb
    have hz : (mkCtx minimums maximums demands A K false rand).allowZero =
        false := rfl
    simp [he, hz]
  intro i j hij hzero
  have hav := solveFF_ok_avoids hB hAA h i j hzero
  rw [hav] at hij
  cases hij

/-- C3, witness: the amended claim applied to the concrete `affC1` run
(whose supplied affinity matrix is not entirely zero). -/
theorem claim3_witness :
    (¬ ∀ i j, affC1 i j = 0) ∧
    (∀ i j, (⟨fun i2 _ => decide (i2.val = 0), true, (1023 : ℚ)/1024⟩ :
        FFSt 2 1).sol i j = true → affC1 i j ≠ 0) :=
  ⟨by decide,
   claim3_amended minsC1 (fun _ => 1) (fun _ => 1) affC1 freeK
     (fun _ _ => 0) bestGOracle noneIOracle 4 4
     ⟨fun i2 _ => decide (i2.val = 0), true, (1023 : ℚ)/1024⟩ (by decide)
     runC1eval⟩

/-- C4, counterexample: `Match.compute_match` overwrites the maximum
with a custom load of `-1` and lowers the minimum to `-1`, while the
specification's rule (and `_get_quota_arrays`) clamps the maximum to 0;
the override rule is therefore not applied uniformly by every path. -/
theorem claim4_counterexample :
    (matchCustomLoads ["r0"] (fun _ => 2) (fun _ => 3) [("r0", -1)]).2 0 =
      -1 ∧
    (matchCustomLoads ["r0"] (fun _ => 2) (fun _ => 3) [("r0", -1)]).1 0 =
      -1 ∧
    (specQuotaArrays 2 3 ["r0"] [("r0", -1)]).2 0 = 0 ∧
    (getQuotaArrays 2 3 ["r0"] [("r0", -1)]).2 0 = 0 := by
  refine ⟨?_, ?_, ?_, ?_⟩ <;> decide

/-- C4, witness: the amended claim (the quota resolver path follows the
specification rule) applied at a concrete input. -/
theorem claim4_witness :
    (2 : ℤ) ≤ 3 ∧
    ((getQuotaArrays 2 3 ["r0"] [("r0", -1)]).1 0 =
      (specQuotaArrays 2 3 ["r0"] [("r0", -1)]).1 0 ∧
     (getQuotaArrays 2 3 ["r0"] [("r0", -1)]).2 0 =
      (specQuotaArrays 2 3 ["r0"] [("r0", -1)]).2 0) :=
  ⟨by decide, claim4_amended 2 3 ["r0"] [("r0", -1)] (by decide) 0⟩

/-- C5: when total demand exceeds total maximum supply or is below total
minimum supply, `solve` raises the configuration `SolverException` from
`_validate_input_range` immediately: the error state is the pristine
initial state (zero solution, `valid = False`), so no assignment was
computed. -/
theorem claim5_theorem {R P : ℕ} (oG : GOracle R P) (oI : IOracle R P)
    (c : Ctx R P) (fI fL : ℕ)
    (h : (∑ i, c.maximums i) < (∑ j, c.demands j) ∨
      (∑ j, c.demands j) < (∑ i, c.minimums i)) :
    solveFF oG oI c fI fL = .err ⟨zeroSol R P, false, 0⟩ := by
  unfold solveFF
  rw [if_neg]
  intro hv
  rcases h with h1 | h1
  · exact absurd hv.1 (not_le.mpr h1)
  · exact absurd hv.2 (not_le.mpr h1)

/-- C5, witness: the out-of-range instance `ctxC5` (demand 5, maximum
supply 2) is rejected before any assignment is computed. -/
theorem claim5_witness :
    ((∑ i, ctxC5.maximums i) < (∑ j, ctxC5.demands j) ∨
      (∑ j, ctxC5.demands j) < (∑ i, ctxC5.minimums i)) ∧
    solveFF bestGOracle noneIOracle ctxC5 4 4 = .err ⟨zeroSol 2 1, false, 0⟩ :=
  ⟨by decide,
   claim5_theorem bestGOracle noneIOracle ctxC5 4 4 (by decide)⟩

/-- C6, witness: the no-growth bound applied to a concrete normally
returning `try_improve_ms` call. -/
theorem claim6_witness :
    tryImproveMs (bestGOracle : GOracle 1 1) (noneIOracle : IOracle 1 1)
      ctxC6 (⟨zeroSol 1 1, false, 0⟩ : FFSt 1 1) =
      .ok ((⟨zeroSol 1 1, false, 0⟩ : FFSt 1 1), 1, 0) ∧
    (∃ stE, entryPhase (bestGOracle : GOracle 1 1) ctxC6
        (⟨zeroSol 1 1, false, 0⟩ : FFSt 1 1) = .ok stE ∧
      0 = (grpPapsByMs ctxC6 (⟨zeroSol 1 1, false, 0⟩ : FFSt 1 1).sol
        (⟨zeroSol 1 1, false, 0⟩ : FFSt 1 1).makespan).2.2.length ∧
      0 ≤ (grpPapsByMs ctxC6 stE.sol stE.makespan).2.2.length) := by
  have h : tryImproveMs (bestGOracle : GOracle 1 1)
      (noneIOracle : IOracle 1 1) ctxC6
      (⟨zeroSol 1 1, false, 0⟩ : FFSt 1 1) =
      .ok ((⟨zeroSol 1 1, false, 0⟩ : FFSt 1 1), 1, 0) := by decide
  exact ⟨h, claim6_theorem h⟩

/-- C7, counterexample: a custom demand edge for an unknown paper id and
a custom load edge for an unknown reviewer id are silently skipped — the
resolvers complete normally with the global values, instead of failing
with an encoder error. -/
theorem claim7_counterexample :
    resolveDemands ["p0"] 2 [("pX", 7)] 0 = 2 ∧
    (getQuotaArrays 1 3 ["r0"] [("rX", -5)]).1 0 = 1 ∧
    (getQuotaArrays 1 3 ["r0"] [("rX", -5)]).2 0 = 3 := by
  refine ⟨?_, ?_, ?_⟩ <;> decide

/-- C7, amended: override edges whose head (for demands) or tail (for
custom loads) is not a known paper or reviewer are ignored: resolution
equals resolution over the filtered edge list, with no error raised. -/
theorem claim7_amended (papers reviewers : List String) (d minP maxP : ℤ)
    (edges : List (String × ℤ)) :
    resolveDemands papers d edges =
      resolveDemands papers d
        (edges.filter fun e => (lastIdx papers e.1).isSome) ∧
    getQuotaArrays minP maxP reviewers edges =
      getQuotaArrays minP maxP reviewers
        (edges.filter fun e => (lastIdx reviewers e.1).isSome) := by
  constructor
  · unfold resolveDemands
    exact foldl_skip_filter papers (demandStep papers)
      (fun s e hl => by unfold demandStep; rw [hl]) edges _
  · unfold getQuotaArrays
    exact foldl_skip_filter reviewers (quotaStep reviewers)
      (fun s e hl => by unfold quotaStep; rw [hl]) edges _

/-- C8, counterexample: two runs from identical inputs whose supplied
affinity matrix is entirely zero return different assignment matrices —
the unseeded random replacement drives the result. -/
theorem claim8_counterexample :
    ctxZA = mkCtx (fun _ => 0) (fun _ => 1) (fun _ => 1) affZero freeK
      false randA ∧
    ctxZB = mkCtx (fun _ => 0) (fun _ => 1) (fun _ => 1) affZero freeK
      false randB ∧
    isOk runZA = true ∧ isOk runZB = true ∧
    okEntry runZA 0 0 = some true ∧ okEntry runZB 0 0 = some false :=
  ⟨rfl, rfl, by rw [runZAeval]; rfl, by rw [runZBeval]; rfl,
   by rw [runZAeval]; rfl, by rw [runZBeval]; rfl⟩

/-- C8, amended: when the supplied affinity matrix has a nonzero entry,
the random draw is dead code and `FairFlow.solve` is a deterministic
function of its inputs (with the external MCF solver fixed): two runs
with different draws agree. -/
theorem claim8_amended {R P : ℕ} (minimums maximums : Fin R → ℤ)
    (demands : Fin P → ℤ) (A : Fin R → Fin P → ℚ) (K : Fin P → Fin R → ℤ)
    (az : Bool) (rand1 rand2 : Fin R → Fin P → ℚ) (oG : GOracle R P)
    (oI : IOracle R P) (fI fL : ℕ) (hA0 : ¬ ∀ i j, A i j = 0) :
    solveFF oG oI (mkCtx minimums maximums demands A K az rand1) fI fL =
    solveFF oG oI (mkCtx minimums maximums demands A K az rand2) fI fL := by
  have hc : mkCtx minimums maximums demands A K az rand1 =
      mkCtx minimums maximums demands A K az rand2 := by
    unfold mkCtx
    rw [if_neg hA0, if_neg hA0]
  rw [hc]

/-- C8, witness: the amended determinism claim applied to the `affC1`
instance with two different random draws. -/
theorem claim8_witness :
    (¬ ∀ i j, affC1 i j = 0) ∧
    solveFF bestGOracle noneIOracle
      (mkCtx minsC1 (fun _ => 1) (fun _ => 1) affC1 freeK false randA)
      4 4 =
    solveFF bestGOracle noneIOracle
      (mkCtx minsC1 (fun _ => 1) (fun _ => 1) affC1 freeK false randB)
      4 4 :=
  ⟨by decide,
   claim8_amended minsC1 (fun _ => 1) (fun _ => 1) affC1 freeK false
     randA randB bestGOracle noneIOracle 4 4 (by decide)⟩

/-- C9: `utils.cost` resolves the undefined module global `utils` before
anything else, so every call raises `NameError` and none returns the
negated integer-scaled weighted score sum. -/
theorem claim9_theorem (scores weights : List (String × ℚ))
    (precision : ℚ) :
    cost scores weights precision = .nameError "utils" ∧
    ∀ v : ℤ, cost scores weights precision ≠ .ok v := by
  have h : cost scores weights precision = .nameError "utils" := by
    unfold cost
    rw [if_neg (by decide)]
  refine ⟨h, fun v hv => ?_⟩
  rw [h] at hv
  cases hv

/-- C10: with `allow_zero_score_assignments = False`, `__init__` zeroes
the minimum load of exactly those reviewers whose row of the solver's
affinity matrix vanishes on all papers not excluded by a constraint, and
leaves every other entry unchanged; the masked-row condition is
equivalent to "zero affinity on every unconstrained paper". -/
theorem claim10_theorem {R P : ℕ} (minimums maximums : Fin R → ℤ)
    (demands : Fin P → ℤ) (A : Fin R → Fin P → ℚ) (K : Fin P → Fin R → ℤ)
    (rand : Fin R → Fin P → ℚ) :
    (∀ r, badReviewer (mkCtx minimums maximums demands A K false rand).eff
        K r →
      (mkCtx minimums maximums demands A K false rand).minimums r = 0) ∧
    (∀ r, ¬ badReviewer (mkCtx minimums maximums demands A K false rand).eff
        K r →
      (mkCtx minimums maximums demands A K false rand).minimums r =
        minimums r) ∧
    (∀ r, badReviewer (mkCtx minimums maximums demands A K false rand).eff
        K r ↔
      ∀ p, K p r = 0 →
        (mkCtx minimums maximums demands A K false rand).eff r p = 0) := by
  refine ⟨?_, ?_, ?_⟩
  · intro r hb
    show (if badReviewer
        (mkCtx minimums maximums demands A K false rand).eff K r then (0 : ℤ)
      else minimums r) = 0
    rw [if_pos hb]
  · intro r hb
    show (if badReviewer
        (mkCtx minimums maximums demands A K false rand).eff K r then (0 : ℤ)
      else minimums r) = minimums r
    rw [if_neg hb]
  · intro r
    unfold badReviewer
    constructor
    · intro hb p hk
      have := hb p
      rw [if_pos hk, mul_one] at this
      exact this
    · intro hb p
      by_cases hk : K p r = 0
      · rw [if_pos hk, mul_one]
        exact hb p hk
      · rw [if_neg hk, mul_zero]

end ORMatcher
